import Mathlib

/-!
Verification of the expression-recording core of `hvplot/interactive.py`
(the `Interactive` wrapper, its dim-transform recording, the reactive
callback, widget discovery and the `_hvplot` accessor).

The Python data values the pipeline manipulates (pandas frames/series of
integers, named xarray arrays, scalars, bound methods, display panes) are
shallowly embedded as `Value`; the HoloViews dim transform expression as
`Dim`; the `Interactive` instance state as `IState`.  All operations are
translated from the source, operation by operation.
-/

namespace HvInteractive

/-- Embedded Python data values.  `vmethod recv name` is a bound method
(`getattr(recv, name)` for a method attribute); `pane` is
`pn.pane.DataFrame(obj, max_rows=..., **kwargs)`; `plotObj` is the opaque
result of an `.hvplot(...)` call, remembering the `kind` keyword it
received; `xarr` is an xarray DataArray with an optional name; `xds` an
xarray Dataset. -/
inductive Value where
  | vnone
  | vint (n : Int)
  | vbool (b : Bool)
  | vstr (s : String)
  | series (xs : List Int)
  | bseries (bs : List Bool)
  | frame (cols : List (String × List Int))
  | xarr (name : Option String) (xs : List Int)
  | xds (cols : List (String × List Int))
  | vmethod (recv : Value) (name : String)
  | pane (cols : List (String × List Int)) (maxRows : Nat) (kw : List (String × Value))
  | plotObj (kind : Option Value)

/-- Column-or-method names Python `dir` reports on a DataFrame (methods
modelled; real pandas has many more). `hvplot` is present because the
accessor is patched onto the data structure. -/
def frameAttrMethods : List String := ["head", "hvplot"]

/-- Method names Python `dir` reports on a Series (modelled subset). -/
def seriesAttrMethods : List String := ["max", "head", "sum", "hvplot"]

/-- Python `getattr` on an embedded data value.  On a DataFrame a method
name wins over a column of the same name (pandas attribute precedence);
otherwise a column name yields the column as a Series. -/
def getattrV : Value → String → Option Value
  | .frame cols, n =>
      if n ∈ frameAttrMethods then some (.vmethod (.frame cols) n)
      else (cols.lookup n).map .series
  | .series xs, n =>
      if n ∈ seriesAttrMethods then some (.vmethod (.series xs) n) else none
  | _, _ => none

/-- Python `dir` on an embedded data value (public names only). -/
def dirV : Value → List String
  | .frame cols => cols.map Prod.fst ++ frameAttrMethods
  | .series _ => seriesAttrMethods
  | _ => []

/-- Maximum of a series, `none` on empty (pandas returns NaN there;
the model keeps it out of range). -/
def seriesMax : List Int → Option Value
  | [] => none
  | x :: r => some (.vint (r.foldl max x))

/-- The result of calling the patched `hvplot` accessor attribute of a
data value: an opaque plot object remembering the `kind` keyword. -/
def hvplotResult : Value → List (String × Value) → Option Value
  | .frame _, kw => some (.plotObj (kw.lookup "kind"))
  | .series _, kw => some (.plotObj (kw.lookup "kind"))
  | _, _ => none

/-- The modelled pandas methods, dispatched by receiver, name and
positional arguments (they take no keywords). -/
def callMethod : Value → String → List Value → Option Value
  | .series xs, "max", [] => seriesMax xs
  | .series xs, "sum", [] => some (.vint (xs.foldl (· + ·) 0))
  | .series xs, "head", [.vint k] => some (.series (xs.take k.toNat))
  | .frame cols, "head", [.vint k] =>
      some (.frame (cols.map fun p => (p.1, p.2.take k.toNat)))
  | _, _, _ => none

/-- Python call of an embedded value: only bound methods are callable.
Keyword arguments other than for `hvplot` are rejected (the modelled
pandas methods take none). -/
def callV : Value → List Value → List (String × Value) → Option Value
  | .vmethod recv n, args, kw =>
      if n = "hvplot" then hvplotResult recv kw
      else if kw.isEmpty then callMethod recv n args
      else none
  | _, _, _ => none

/-- The binary operators `_apply_operator` can record
(`operator.add`, `operator.gt`, `operator.getitem`, ...). -/
inductive BinOp where
  | add | sub | mul | truediv | floordiv | mod | pow
  | and_ | or_ | lshift | rshift
  | eq | ne | lt | le | gt | ge
  | getitem
deriving DecidableEq, Repr

/-- Unary operators recorded by `__neg__`, `__abs__`, `__invert__`,
`__pos__`, `__not__`. -/
inductive UnOp where
  | neg | abs | inv | pos | not_
deriving DecidableEq, Repr

/-- Keep the rows of a column whose mask entry is true
(boolean indexing). -/
def maskF (xs : List Int) (m : List Bool) : List Int :=
  (xs.zip m).filterMap fun p => if p.2 then some p.1 else none

/-- Semantics of a binary operator on embedded data values (the dataset
abstraction's own operation semantics; partial table, `none` where not
modelled). -/
def binEval : BinOp → Value → Value → Option Value
  | .add, .vint a, .vint b => some (.vint (a + b))
  | .sub, .vint a, .vint b => some (.vint (a - b))
  | .mul, .vint a, .vint b => some (.vint (a * b))
  | .mod, .vint a, .vint b => if b = 0 then none else some (.vint (a % b))
  | .floordiv, .vint a, .vint b => if b = 0 then none else some (.vint (a / b))
  | .eq, .vint a, .vint b => some (.vbool (decide (a = b)))
  | .ne, .vint a, .vint b => some (.vbool (decide (a ≠ b)))
  | .lt, .vint a, .vint b => some (.vbool (decide (a < b)))
  | .le, .vint a, .vint b => some (.vbool (decide (a ≤ b)))
  | .gt, .vint a, .vint b => some (.vbool (decide (b < a)))
  | .ge, .vint a, .vint b => some (.vbool (decide (b ≤ a)))
  | .add, .series xs, .vint n => some (.series (xs.map (· + n)))
  | .sub, .series xs, .vint n => some (.series (xs.map (· - n)))
  | .mul, .series xs, .vint n => some (.series (xs.map (· * n)))
  | .gt, .series xs, .vint n => some (.bseries (xs.map fun x => decide (n < x)))
  | .lt, .series xs, .vint n => some (.bseries (xs.map fun x => decide (x < n)))
  | .ge, .series xs, .vint n => some (.bseries (xs.map fun x => decide (n ≤ x)))
  | .le, .series xs, .vint n => some (.bseries (xs.map fun x => decide (x ≤ n)))
  | .eq, .series xs, .vint n => some (.bseries (xs.map fun x => decide (x = n)))
  | .ne, .series xs, .vint n => some (.bseries (xs.map fun x => decide (x ≠ n)))
  | .and_, .bseries a, .bseries b =>
      if a.length = b.length then some (.bseries (a.zipWith Bool.and b)) else none
  | .or_, .bseries a, .bseries b =>
      if a.length = b.length then some (.bseries (a.zipWith Bool.or b)) else none
  | .getitem, .frame cols, .bseries m =>
      some (.frame (cols.map fun p => (p.1, maskF p.2 m)))
  | .getitem, .series xs, .bseries m => some (.series (maskF xs m))
  | .getitem, .frame cols, .vstr s => (cols.lookup s).map .series
  | _, _, _ => none

/-- Semantics of a unary operator on embedded data values. -/
def unEval : UnOp → Value → Option Value
  | .neg, .vint n => some (.vint (-n))
  | .neg, .series xs => some (.series (xs.map Neg.neg))
  | .abs, .vint n => some (.vint |n|)
  | .abs, .series xs => some (.series (xs.map fun x => |x|))
  | .pos, .vint n => some (.vint n)
  | .pos, .series xs => some (.series xs)
  | .inv, .bseries bs => some (.bseries (bs.map Bool.not))
  | .not_, .vbool b => some (.vbool (!b))
  | _, _ => none

/-- Which identity transform `__init__` chose: `hv.util.transform.dim`,
`df_dim` or `xr_dim`. -/
inductive DimKind where
  | plain | df | xr
deriving DecidableEq, Repr

/-- The HoloViews dim transform expression as the `Interactive` code
builds it: an identity root (`dim('*')` / `df_dim('*')` / `xr_dim(name)`),
accessor nodes (`type(t)(t, name, accessor=True)`), call nodes applying
the pending accessor with args and kwargs, and operator nodes from
`_apply_operator` (an operand that is itself a wrapper contributes its
own transform: `binE`). -/
inductive Dim where
  | root (k : DimKind) (sel : String)
  | getattrD (e : Dim) (name : String)
  | callD (e : Dim) (args : List Value) (kw : List (String × Value))
  | binV (e : Dim) (k : BinOp) (other : Value) (rev : Bool)
  | binE (e : Dim) (k : BinOp) (other : Dim) (rev : Bool)
  | unD (e : Dim) (k : UnOp)

/-- Apply a dim transform to the wrapped data value
(`transform.apply(hv.Dataset(obj), keep_index=True, compute=False)`).
A reversed operator applies with the operand order swapped; a dim-typed
operand is applied to the same dataset. -/
def dimApply : Dim → Value → Option Value
  | .root _ sel, v =>
      if sel = "*" then some v
      else
        match v with
        | .xarr (some n) xs => if n = sel then some (.xarr (some n) xs) else none
        | _ => none
  | .getattrD e n, v => do
      let u ← dimApply e v
      getattrV u n
  | .callD e args kw, v => do
      let u ← dimApply e v
      callV u args kw
  | .binV e k x rev, v => do
      let u ← dimApply e v
      if rev then binEval k x u else binEval k u x
  | .binE e k o rev, v => do
      let u ← dimApply e v
      let w ← dimApply o v
      if rev then binEval k w u else binEval k u w
  | .unD e k, v => do
      let u ← dimApply e v
      unEval k u

/-- The `transform.clone(name)` call of `_callback`: rebind the root
selection of the transform. -/
def rebindRoot : Dim → String → Dim
  | .root k _, s => .root k s
  | .getattrD e n, s => .getattrD (rebindRoot e s) n
  | .callD e args kw, s => .callD (rebindRoot e s) args kw
  | .binV e k x rev, s => .binV (rebindRoot e s) k x rev
  | .binE e k o rev, s => .binE (rebindRoot e s) k (rebindRoot o s) rev
  | .unD e k, s => .unD (rebindRoot e s) k

/-- The `is_xarray` check from `hvplot.util`. -/
def isXArray : Value → Bool
  | .xarr _ _ => true
  | .xds _ => true
  | _ => false

/-- The `is_xarray_dataarray` check from `hvplot.util`. -/
def isDataArray : Value → Bool
  | .xarr _ _ => true
  | _ => false

/-- The `is_tabular` check from `hvplot.util` (frame-like data). -/
def isTabular : Value → Bool
  | .frame _ => true
  | .series _ => true
  | .bseries _ => true
  | _ => false

/-- The `.name` attribute of an xarray DataArray. -/
def xname : Value → Option String
  | .xarr n _ => n
  | _ => none

/-- Errors the modelled code can raise. `valueError` is the
"Cannot use interactive API on DataArray without name" error of
`__init__` (the spec's `ConfigurationError`); `typeError` the "got an
unexpected keyword argument" error of `_hvplot.__call__` (the spec's
`InvalidArgumentError`); `attributeError` a Python `AttributeError`;
`applyError` any exception propagating out of `transform.apply` while
`__init__` computes `_current`; `fuelOut` marks recursion-budget
exhaustion of the chain-replay harness, never raised by the model
itself for the budgets used in the theorems. -/
inductive PyErr where
  | valueError
  | attributeError
  | typeError
  | applyError
  | fuelOut
deriving DecidableEq, Repr

/-- The observable state of one `Interactive` instance after `__init__`
has run: the shared source `_obj`, the widget-owner information of the
`_fn` dependency parameters, `_transform`, `_method`, `_plot`, `_depth`,
`_loc`, `_center`, `_dmap`, `_inherit_kwargs`, `_max_rows`, `_kwargs`
and the eagerly computed `_current`. -/
structure IState where
  obj : Value
  fnWidgets : List (Option Nat)
  transform : Dim
  method : Option String
  plot : Bool
  depth : Nat
  loc : String
  center : Bool
  dmap : Bool
  inheritKw : List (String × Value)
  maxRows : Nat
  kwargs : List (String × Value)
  current : Value

/-- Python `dict(d, **e)`: entries of `d` with values overridden by `e`,
followed by the entries of `e` whose keys are new. -/
def pyUpdate (d e : List (String × Value)) : List (String × Value) :=
  (d.map fun p =>
    match e.lookup p.1 with
    | some v => (p.1, v)
    | none => p) ++ e.filter fun q => (d.lookup q.1).isNone

/-- The transform-selection block at the top of `Interactive.__init__`,
run only when no transform is passed: `dim = '*'`, switch to `xr_dim`
for xarray input (taking the DataArray's name and raising the
"Cannot use interactive API on DataArray without name" error when it has
none) and to `df_dim` for tabular input. -/
def initTransformFor (obj : Value) : Except PyErr Dim :=
  if isXArray obj then
    let d := if isDataArray obj then xname obj else some "*"
    match d with
    | none => .error .valueError
    | some s => .ok (Dim.root .xr s)
  else if isTabular obj then .ok (Dim.root .df "*")
  else .ok (Dim.root .plain "*")

/-- The tail of `Interactive.__init__` once the transform is fixed:
eagerly compute `_current = transform.apply(hv.Dataset(obj),
keep_index=True, compute=False)`; any failure there propagates out of
the constructor. -/
def initWith (obj : Value) (t : Dim) (fnWidgets : List (Option Nat))
    (plot : Bool) (depth : Nat) (loc : String) (center : Bool) (dmap : Bool)
    (inheritKw : List (String × Value)) (maxRows : Nat) (method : Option String)
    (kwargs : List (String × Value)) : Except PyErr IState :=
  match dimApply t obj with
  | none => .error .applyError
  | some cur =>
      .ok ⟨obj, fnWidgets, t, method, plot, depth, loc, center, dmap,
           inheritKw, maxRows, kwargs, cur⟩

/-- `Interactive.__init__`: choose the identity transform when none is
given, then eagerly compute `_current`. -/
def initI (obj : Value) (transform : Option Dim) (fnWidgets : List (Option Nat))
    (plot : Bool) (depth : Nat) (loc : String) (center : Bool) (dmap : Bool)
    (inheritKw : List (String × Value)) (maxRows : Nat) (method : Option String)
    (kwargs : List (String × Value)) : Except PyErr IState :=
  match transform with
  | some t => initWith obj t fnWidgets plot depth loc center dmap inheritKw maxRows method kwargs
  | none =>
      match initTransformFor obj with
      | .error e => .error e
      | .ok t => initWith obj t fnWidgets plot depth loc center dmap inheritKw maxRows method kwargs

/-- `Interactive._clone`: `plot = self._plot or plot`,
`transform = transform or self._transform`, depth incremented; on
`copy=True` the method and inherited kwargs are carried over, otherwise
the inherited kwargs spill into the plain kwargs and the method resets.
The new instance is built through `__init__` (so `_current` is
recomputed and construction can fail). -/
def cloneI (st : IState) (transform : Option Dim) (plot : Bool)
    (loc : Option String) (center : Option Bool) (dmapA : Option Bool)
    (copy : Bool) (inheritA : Option (List (String × Value)))
    (extraKw : List (String × Value)) : Except PyErr IState :=
  let t := transform.getD st.transform
  let kwInit :=
    if copy then pyUpdate st.kwargs extraKw
    else pyUpdate st.inheritKw (pyUpdate st.kwargs extraKw)
  let inh := if copy then inheritA.getD st.inheritKw else inheritA.getD []
  let meth := if copy then st.method else none
  initI st.obj (some t) st.fnWidgets (st.plot || plot) (st.depth + 1)
    (loc.getD st.loc) (center.getD st.center) (dmapA.getD st.dmap)
    inh st.maxRows meth kwInit

/-- `Interactive._resolve_accessor`: with no pending method return a
copied clone; otherwise finalize the pending method into an accessor
node of the transform (inheriting an axis provider when the method is
`plot`) and reset `_method` on the originating instance.  Returns the
new node together with the post-state of the originating instance. -/
def resolveAccessorFull (st : IState) : Except PyErr (IState × IState) :=
  match st.method with
  | none =>
      match cloneI st none false none none none true none [] with
      | .error e => .error e
      | .ok n => .ok (n, st)
  | some m =>
      let t := Dim.getattrD st.transform m
      let inh : List (String × Value) := if m == "plot" then [("ax", .vnone)] else []
      match cloneI st (some t) false none none none false (some inh) [] with
      | .error e => .error e
      | .ok n => .ok (n, { st with method := none })

/-- The new node produced by `_resolve_accessor` (most call sites only
use it). -/
def resolveAccessorNew (st : IState) : Except PyErr IState :=
  match resolveAccessorFull st with
  | .error e => .error e
  | .ok p => .ok p.1

/-- The public attribute surface of the wrapper itself
(`super().__dir__()` restricted to public names: the class methods plus
the `hvplot` accessor instance attribute). -/
def ownSurface : List String :=
  ["applies", "dmap", "eval", "holoviews", "hvplot", "layout", "output",
   "panel", "widgets"]

/-- The `startswith('_')` check of `__getattribute__`: a name whose
first character is an underscore. -/
def pyStartsUnderscore (s : String) : Bool :=
  match s.data with
  | [] => false
  | c :: _ => c == '_'

/-- Result of `Interactive.__getattribute__`: either the wrapper's own
attribute (`super().__getattribute__`), or a new wrapper node carrying
the accessed name as its pending method. -/
inductive AttrRes where
  | own
  | data (st : IState)

/-- `Interactive.__getattribute__` for a public name `n` (the `_init`
guard is active: the instance is fully constructed).  Narrows `_current`
by the pending method, lists the public attributes of that value, and
resolves to a data-level accessor only when `n` is among them and not on
the wrapper's own surface.  Returns the result and the post-state of the
originating instance (whose `_method` is reset by `_resolve_accessor`). -/
def getattributeI (st : IState) (name : String) :
    Except PyErr (AttrRes × IState) :=
  let currentQ : Except PyErr Value :=
    match st.method with
    | some m =>
        match getattrV st.current m with
        | some u => .ok u
        | none => .error .attributeError
    | none => .ok st.current
  match currentQ with
  | .error e => .error e
  | .ok current =>
      let extras := (dirV current).filter fun d => !pyStartsUnderscore d
      if name ∈ extras ∧ name ∉ ownSurface then
        match resolveAccessorFull st with
        | .error e => .error e
        | .ok p => .ok (.data { p.1 with method := some name }, p.2)
      else
        .ok (.own, st)

/-- `Interactive._apply_operator` for a binary operator: resolve the
pending accessor, then append an operator node; a wrapper operand has
already been replaced by its transform (`other._transform`).  Returns
the new node and the post-state of the originating instance. -/
def applyOperatorFull (st : IState) (k : BinOp) (other : Sum Dim Value)
    (rev : Bool) : Except PyErr (IState × IState) :=
  match resolveAccessorFull st with
  | .error e => .error e
  | .ok p =>
      let t :=
        match other with
        | .inl d => Dim.binE p.1.transform k d rev
        | .inr x => Dim.binV p.1.transform k x rev
      match cloneI p.1 (some t) false none none none false none [] with
      | .error e => .error e
      | .ok n => .ok (n, p.2)

/-- The new node produced by `_apply_operator` for a binary operator. -/
def applyOperatorNew (st : IState) (k : BinOp) (other : Sum Dim Value)
    (rev : Bool) : Except PyErr IState :=
  match resolveAccessorNew st with
  | .error e => .error e
  | .ok n =>
      match other with
      | .inl d => cloneI n (some (Dim.binE n.transform k d rev)) false none none none false none []
      | .inr x => cloneI n (some (Dim.binV n.transform k x rev)) false none none none false none []

/-- `Interactive._apply_operator` for a unary operator (`abs`,
`operator.neg`, ...). -/
def applyUnaryFull (st : IState) (k : UnOp) : Except PyErr (IState × IState) :=
  match resolveAccessorFull st with
  | .error e => .error e
  | .ok p =>
      match cloneI p.1 (some (.unD p.1.transform k)) false none none none false none [] with
      | .error e => .error e
      | .ok n => .ok (n, p.2)

/-- The new node produced by `_apply_operator` for a unary operator. -/
def applyUnaryNew (st : IState) (k : UnOp) : Except PyErr IState :=
  match resolveAccessorNew st with
  | .error e => .error e
  | .ok n => cloneI n (some (.unD n.transform k)) false none none none false none []

/-- `Interactive.__call__`: with no pending method, a depth-zero call
reconfigures via `_clone(**kwargs)` and any other call raises
`AttributeError`; with a pending method `m`, build the method-call node
`type(t)(t, m, accessor=True)(*args, **merged_kwargs)` on a copied
clone, setting the plot flag when the method is `plot` (whose call also
receives the axis provider).  Positional root-call arguments are not
modelled (the configuration path takes keywords). -/
def interactiveCall (st : IState) (args : List Value)
    (kwargs : List (String × Value)) : Except PyErr IState :=
  match st.method with
  | none =>
      if st.depth = 0 then
        match args with
        | [] => cloneI st none false none none none false none kwargs
        | _ => .error .typeError
      else .error .attributeError
  | some m =>
      let kwargs := if m == "plot" then pyUpdate kwargs [("ax", .vnone)] else kwargs
      match cloneI st none false none none none true none [] with
      | .error e => .error e
      | .ok new =>
          let mdim := Dim.callD (.getattrD new.transform m) args (pyUpdate new.inheritKw kwargs)
          cloneI new (some mdim) (m == "plot") none none none false none []

/-- `Interactive.eval`: return `_current`, narrowed by the pending
method via `getattr(obj, self._method, obj)`. -/
def evalI (st : IState) : Value :=
  match st.method with
  | some m => (getattrV st.current m).getD st.current
  | none => st.current

/-- `Interactive.__getitem__` is `_apply_operator(operator.getitem, other)`. -/
def getitemI (st : IState) (other : Sum Dim Value) : Except PyErr IState :=
  applyOperatorNew st .getitem other false

/-- The state of `Interactive(obj)` built with the constructor's default
arguments. -/
def initRoot (obj : Value) : Except PyErr IState :=
  initI obj none [] false 0 "top_left" false false [] 100 none []

/-- The Python 3 `operator` module attributes the reverse dunder methods
look up.  `div`, `rlshift` and `rrshift` do not exist in Python 3
(`operator.div` was removed with Python 2), so looking them up raises
`AttributeError`. -/
def operatorAttr : String → Option BinOp
  | "add" => some .add
  | "sub" => some .sub
  | "mul" => some .mul
  | "truediv" => some .truediv
  | "floordiv" => some .floordiv
  | "mod" => some .mod
  | "pow" => some .pow
  | "and_" => some .and_
  | "or_" => some .or_
  | "lshift" => some .lshift
  | "rshift" => some .rshift
  | "eq" => some .eq
  | "ne" => some .ne
  | "lt" => some .lt
  | "le" => some .le
  | "gt" => some .gt
  | "ge" => some .ge
  | "getitem" => some .getitem
  | _ => none

/-- `Interactive.__radd__`: the source reads
`self._apply_operator(operator.div, other, reverse=True)` — the operator
module attribute `div` is looked up when the method runs. -/
def raddI (st : IState) (other : Sum Dim Value) : Except PyErr IState :=
  match operatorAttr "div" with
  | none => .error .attributeError
  | some f => applyOperatorNew st f other true

/-- `Interactive.__rsub__`:
`self._apply_operator(operator.sub, other, reverse=True)`. -/
def rsubI (st : IState) (other : Sum Dim Value) : Except PyErr IState :=
  match operatorAttr "sub" with
  | none => .error .attributeError
  | some f => applyOperatorNew st f other true

/-- `Interactive.__sub__`: `self._apply_operator(operator.sub, other)`. -/
def subI (st : IState) (other : Sum Dim Value) : Except PyErr IState :=
  match operatorAttr "sub" with
  | none => .error .attributeError
  | some f => applyOperatorNew st f other false

/-- `Interactive.__add__`: `self._apply_operator(operator.add, other)`. -/
def addI (st : IState) (other : Sum Dim Value) : Except PyErr IState :=
  match operatorAttr "add" with
  | none => .error .attributeError
  | some f => applyOperatorNew st f other false

/-- The transform the callback applies: `transform.clone(obj.name)` when
the live object is a named DataArray, `self._transform` otherwise. -/
def cbTransform (st : IState) : Dim :=
  match st.obj with
  | .xarr (some n) _ => rebindRoot st.transform n
  | _ => st.transform

/-- The narrowing step of the callback:
`obj = getattr(obj, self._method, obj)` when a method is pending. -/
def cbNarrow (st : IState) (u : Value) : Value :=
  match st.method with
  | some m => (getattrV u m).getD u
  | none => u

/-- The body of `Interactive._callback`'s `evaluate`: re-wrap the live
`_obj`, rebind a named DataArray transform, apply the transform, narrow
by the pending method (`getattr(obj, self._method, obj)`), then return
the process-wide figure slot when the plot flag is set, a bounded-row
DataFrame pane for frame-shaped results, and the raw result otherwise.
`figSlot` is the current content of the `Interactive._fig` class slot. -/
def callbackEval (st : IState) (figSlot : Value) : Option Value :=
  match dimApply (cbTransform st) st.obj with
  | none => none
  | some u =>
      let u := cbNarrow st u
      if st.plot then some figSlot
      else
        match u with
        | .frame cols => some (.pane cols st.maxRows st.kwargs)
        | w => some w

/-- `_update_obj`: a driver dependency fired and the shared source is
replaced in place. -/
def updateObj (st : IState) (v : Value) : IState := { st with obj := v }

/-- The plotting kinds of the accessor. Modelled from the spec: the
table itself lives in `HoloViewsConverter._kind_mapping` outside this
module ("the plotting-kind dispatch table" is an external collaborator);
a representative subset of kind names. -/
def hvplotKinds : List String := ["line", "scatter", "area", "bar", "hist", "kde"]

/-- Python truthiness of the `_kind` argument (a missing or empty kind
is falsy). -/
def pyTruthy : Option String → Bool
  | none => false
  | some s => !(s == "")

/-- `_hvplot.__call__`: reject an explicit `kind` keyword when a kind is
already bound, otherwise bind the fixed kind, resolve the accessor and
append an `hvplot` call node; `dmap` is set unless the effective `kind`
is a string. -/
def hvplotCall (st : IState) (args : List Value)
    (kwargs : List (String × Value)) (uKind : Option String) :
    Except PyErr IState :=
  if pyTruthy uKind ∧ (kwargs.lookup "kind").isSome then .error .typeError
  else
    let kwargs :=
      match uKind with
      | some k => if k = "" then kwargs else pyUpdate kwargs [("kind", .vstr k)]
      | none => kwargs
    match resolveAccessorNew st with
    | .error e => .error e
    | .ok new =>
        let t := Dim.callD (.getattrD new.transform "hvplot") args kwargs
        let dmap :=
          match kwargs.lookup "kind" with
          | some (.vstr _) => false
          | _ => true
        cloneI new (some t) false none none (some dmap) false none []

/-- `_hvplot.__getattr__`: a name in the kind table yields the accessor
call with that kind bound (`partial(self, _kind=attr)`); any other name
raises `AttributeError`. -/
def hvplotAttr (attr : String) : Except PyErr (Option String) :=
  if attr ∈ hvplotKinds then .ok (some attr) else .error .attributeError

/-- One user-level operation applied to a wrapper (and, for comparison,
directly to the data): a data-level attribute access, a call of the
pending method, a binary operator against a literal, a binary operator
against a sub-chain built from the same root wrapper (`w[w.A > 1]`), or
a unary operator.  Indexing is `binL/binW` with `BinOp.getitem`. -/
inductive COp where
  | attr (n : String)
  | callN (args : List Value)
  | binL (k : BinOp) (x : Value)
  | binW (k : BinOp) (sub : List COp)
  | un (k : UnOp)

mutual
/-- Replay a chain of operations directly on the data (`v0` is the root
value sub-chains restart from; fueled for nested recursion). -/
def runChainAux : Nat → Value → Value → List COp → Option Value
  | 0, _, _, _ => none
  | _ + 1, _, cur, [] => some cur
  | fuel + 1, v0, cur, op :: rest =>
      match runOpD fuel v0 cur op with
      | none => none
      | some c => runChainAux fuel v0 c rest

/-- Apply one operation directly to the data. -/
def runOpD : Nat → Value → Value → COp → Option Value
  | 0, _, _, _ => none
  | _ + 1, _, cur, .attr n => getattrV cur n
  | _ + 1, _, cur, .callN args => callV cur args []
  | _ + 1, _, cur, .binL k x => binEval k cur x
  | fuel + 1, v0, cur, .binW k sub =>
      match runChainAux fuel v0 v0 sub with
      | none => none
      | some w => binEval k cur w
  | _ + 1, _, cur, .un k => unEval k cur
end

mutual
/-- Replay a chain of operations through the wrapper (`r` is the root
wrapper sub-chains restart from). -/
def buildChain : Nat → IState → IState → List COp → Except PyErr IState
  | 0, _, _, _ => .error .fuelOut
  | _ + 1, _, st, [] => .ok st
  | fuel + 1, r, st, op :: rest =>
      match buildOpW fuel r st op with
      | .error e => .error e
      | .ok st1 => buildChain fuel r st1 rest

/-- Apply one operation through the wrapper: `.attr` goes through
`__getattribute__` and must resolve to a data-level accessor, `.callN`
through `__call__`, operators through `_apply_operator`, a wrapper
operand through its transform. -/
def buildOpW : Nat → IState → IState → COp → Except PyErr IState
  | 0, _, _, _ => .error .fuelOut
  | _ + 1, _, st, .attr n =>
      match getattributeI st n with
      | .error e => .error e
      | .ok (.own, _) => .error .attributeError
      | .ok (.data st1, _) => .ok st1
  | _ + 1, _, st, .callN args => interactiveCall st args []
  | _ + 1, _, st, .binL k x => applyOperatorNew st k (.inr x) false
  | fuel + 1, r, st, .binW k sub =>
      match buildChain fuel r r sub with
      | .error e => .error e
      | .ok s => applyOperatorNew st k (.inl s.transform) false
  | _ + 1, _, st, .un k => applyUnaryNew st k
end

/-- A root-wrappable data value: not a bound method (functions and
methods are converted by `Interactive.__new__` before `__init__` runs),
not a display artifact. -/
def isDataV : Value → Bool
  | .vmethod _ _ => false
  | .pane _ _ _ => false
  | .plotObj _ => false
  | _ => true

/-- A fallback state used only to read a value out of an `Except`
result in concrete computations. -/
def dfltState : IState :=
  ⟨.vnone, [], .root .plain "*", none, false, 0, "top_left", false, false,
   [], 100, [], .vnone⟩

/-- Extract the state of a successful construction (fallback otherwise). -/
def exState : Except PyErr IState → IState
  | .ok s => s
  | .error _ => dfltState

/-- One argument of a recorded operation node, as `_find_widgets`
classifies it after flattening positional and keyword arguments: a panel
widget, an ipywidget, a reactive parameter (with its owner when the
owner is a widget), a nested dim expression carrying its own operation
nodes, or anything else.  Widgets are identified by identity (a number). -/
inductive Arg where
  | widget (w : Nat)
  | ipyWidget (w : Nat)
  | paramOf (owner : Option Nat)
  | dim (ops : List (List Arg))
  | other

/-- Append a widget if it has not been collected yet
(`if op_arg not in widgets: widgets.append(op_arg)`). -/
def mergeStep (ws : List Nat) (w : Nat) : List Nat :=
  if w ∈ ws then ws else ws ++ [w]

/-- Merge a stream of widgets into a collection, keeping first-seen
order and dropping ones already present. -/
def mergeNew (ws : List Nat) (l : List Nat) : List Nat :=
  l.foldl mergeStep ws

/-- The canonical first-seen-order deduplication of a widget stream. -/
def firstSeen (l : List Nat) : List Nat := mergeNew [] l

mutual
/-- The body of the `_find_widgets` loop for one argument, extending the
widget collection `ws`.  `ipy` is whether `ipywidgets` is imported (the
`panel` module always is, since this module imports it). -/
def fwArg (ipy : Bool) : Arg → List Nat → List Nat
  | .widget w, ws => mergeStep ws w
  | .ipyWidget w, ws => if ipy then mergeStep ws w else ws
  | .paramOf (some w), ws => mergeStep ws w
  | .paramOf none, ws => ws
  | .dim ops, ws => fwOps ipy ops ws
  | .other, ws => ws

/-- `_find_widgets` over the flattened argument list of one operation,
threading the collection. -/
def fwArgs (ipy : Bool) : List Arg → List Nat → List Nat
  | [], ws => ws
  | a :: rest, ws => fwArgs ipy rest (fwArg ipy a ws)

/-- The nested-dim branch of `_find_widgets`: each nested operation gets
a fresh `_find_widgets` call whose results are merged in. -/
def fwOps (ipy : Bool) : List (List Arg) → List Nat → List Nat
  | [], ws => ws
  | op :: rest, ws => fwOps ipy rest (mergeNew ws (fwArgs ipy op []))
end

/-- `_find_widgets(op)`: collect the widgets of one operation node,
starting from an empty collection. -/
def findWidgets (ipy : Bool) (op : List Arg) : List Nat :=
  fwArgs ipy op []

mutual
/-- The raw stream of widget identities an argument mentions, in
traversal order and with repetitions. -/
def streamArg (ipy : Bool) : Arg → List Nat
  | .widget w => [w]
  | .ipyWidget w => if ipy then [w] else []
  | .paramOf (some w) => [w]
  | .paramOf none => []
  | .dim ops => streamOps ipy ops
  | .other => []

/-- The raw widget stream of an operation's arguments. -/
def streamArgs (ipy : Bool) : List Arg → List Nat
  | [] => []
  | a :: rest => streamArg ipy a ++ streamArgs ipy rest

/-- The raw widget stream of a list of operations. -/
def streamOps (ipy : Bool) : List (List Arg) → List Nat
  | [] => []
  | op :: rest => streamArgs ipy op ++ streamOps ipy rest
end

/-- `Interactive.widgets`: first the widget owners among the driver's
dependency parameters, then `_find_widgets` over every operation node of
the transform, each merged with first-seen deduplication. -/
def widgetsI (ipy : Bool) (fnParams : List (Option Nat))
    (ops : List (List Arg)) : List Nat :=
  let ws := fnParams.foldl
    (fun acc p =>
      match p with
      | some w => mergeStep acc w
      | none => acc) []
  ops.foldl (fun acc op => mergeNew acc (findWidgets ipy op)) ws

/-- The evaluation of an operand as `_apply_operator` recorded it: a
wrapper operand was replaced by its transform (applied to the same
dataset), a literal stands for itself. -/
def operandEval : Sum Dim Value → Value → Option Value
  | .inl d, v => dimApply d v
  | .inr x, _ => some x

/-- `_current` narrowed by the pending method with a plain `getattr`
(the narrowing `__getattribute__` performs). -/
def narrowCur (st : IState) : Option Value :=
  match st.method with
  | some m => getattrV st.current m
  | none => some st.current

/-- The simulation invariant a wrapper state reached by replaying a
chain from a data value `v` satisfies: it shares the source, its cached
current value is the transform applied to the source, any pending method
is a public data-level name off the wrapper surface, and a resolved
state holds a plain data value. -/
def SInv (v : Value) (st : IState) : Prop :=
  st.obj = v ∧
  dimApply st.transform v = some st.current ∧
  (∀ m, st.method = some m → m ∈ dirV st.current ∧ m ∉ ownSurface) ∧
  (st.method = none → isDataV st.current = true)

/-- What holds of the chain-root wrapper state. -/
def RootInv (v : Value) (r : IState) : Prop :=
  SInv v r ∧ r.method = none ∧ r.current = v

/-- The tabular value of the concrete scenario: column `A = [1, 2, 3]`. -/
def vW : Value := .frame [("A", [1, 2, 3])]

/-- The root wrapper over the scenario value. -/
def rW : IState := exState (initRoot vW)

/-- The recorded chain of `w.A.max()`. -/
def chainMaxW : List COp := [.attr "A", .attr "max", .callN []]

/-- The recorded chain of `w.A > 1`. -/
def chainGtW : List COp := [.attr "A", .binL .gt (.vint 1)]

/-- The recorded chain of `w[w.A > 1]`. -/
def chainFilterW : List COp := [.binW .getitem [.attr "A", .binL .gt (.vint 1)]]

/-- A transform whose application to the scenario frame fails
(access to a missing column `B`). -/
def badTransformW : Dim := .getattrD (.root .df "*") "B"

/-- A root wrapper over the integer `5`. -/
def r5W : IState := exState (initRoot (.vint 5))

/-- Extract the result pair of a successful `__getattribute__` data
resolution (fallbacks otherwise), for concrete computations. -/
def exAttr : Except PyErr (AttrRes × IState) → IState × IState
  | .ok (.data s, p) => (s, p)
  | .ok (.own, p) => (dfltState, p)
  | .error _ => (dfltState, dfltState)

/-- Extract the pair of a successful instrumented operation. -/
def exPairE : Except PyErr (IState × IState) → IState × IState
  | .ok p => p
  | .error _ => (dfltState, dfltState)

/-- The wrapper node `w.A` over the scenario frame (pending method `A`). -/
def stA6 : IState := (exAttr (getattributeI rW "A")).1

/-- The post-state of the originating node of `rW.A`. -/
def postA6 : IState := (exAttr (getattributeI rW "A")).2

/-- A non-root wrapper state (the scenario root at depth one). -/
def stDepth1 : IState := { rW with depth := 1 }

/-- A key present among an association list's keys has a value. -/
theorem lookup_isSome_of_mem_keys {l : List (String × List Int)} {a : String}
    (h : a ∈ l.map Prod.fst) : (l.lookup a).isSome := by
  induction l with
  | nil => simp at h
  | cons p rest ih =>
      obtain ⟨pk, pv⟩ := p
      rw [List.map_cons] at h
      rcases List.mem_cons.mp h with h | h
      · simp [List.lookup, h]
      · by_cases hpa : a = pk
        · simp [List.lookup, hpa]
        · have h3 := ih h
          have hbeq : (a == pk) = false := beq_eq_false_iff_ne.mpr hpa
          simp only [List.lookup, hbeq]
          exact h3

/-- A name Python `dir` reports resolves through `getattr`. -/
theorem mem_dirV_getattr {u : Value} {m : String} (h : m ∈ dirV u) :
    (getattrV u m).isSome := by
  cases u with
  | frame cols =>
      have h' : m ∈ cols.map Prod.fst ++ frameAttrMethods := h
      by_cases hm : m ∈ frameAttrMethods
      · simp [getattrV, hm]
      · have h1 : m ∈ cols.map Prod.fst := by
          rcases List.mem_append.mp h' with h1 | h1
          · exact h1
          · exact absurd h1 hm
        have h2 := lookup_isSome_of_mem_keys h1
        simp only [getattrV, if_neg hm]
        rcases Option.isSome_iff_exists.mp h2 with ⟨ys, hys⟩
        rw [hys]
        rfl
  | series xs =>
      have h' : m ∈ seriesAttrMethods := h
      simp [getattrV, h']
  | vnone => exact absurd h (by simp [dirV])
  | vint n => exact absurd h (by simp [dirV])
  | vbool b => exact absurd h (by simp [dirV])
  | vstr s => exact absurd h (by simp [dirV])
  | bseries bs => exact absurd h (by simp [dirV])
  | xarr n xs => exact absurd h (by simp [dirV])
  | xds cols => exact absurd h (by simp [dirV])
  | vmethod r n => exact absurd h (by simp [dirV])
  | pane cols mr kw => exact absurd h (by simp [dirV])
  | plotObj k => exact absurd h (by simp [dirV])

/-- Only frames and series report attributes in the model. -/
theorem dirV_shape {u : Value} {m : String} (h : m ∈ dirV u) :
    (∃ cols, u = .frame cols) ∨ ∃ xs, u = .series xs := by
  cases u
  case frame cols => exact Or.inl ⟨_, rfl⟩
  case series xs => exact Or.inr ⟨_, rfl⟩
  all_goals exact absurd h (by simp [dirV])

/-- `getattr` on a data value returns the bound method of that name or a
column as a series. -/
theorem getattrV_shape {u : Value} {m : String} {w : Value}
    (h : getattrV u m = some w) :
    w = .vmethod u m ∨ ∃ xs, w = .series xs := by
  cases u <;> simp only [getattrV] at h
  case frame cols =>
      split at h
      · exact Or.inl (Option.some.inj h).symm
      · rcases Option.map_eq_some'.mp h with ⟨ys, _, rfl⟩
        exact Or.inr ⟨ys, rfl⟩
  case series xs =>
      split at h
      · exact Or.inl (Option.some.inj h).symm
      · exact absurd h (by simp)
  all_goals simp at h

/-- No binary operator in the modelled table accepts a series as right
operand. -/
theorem binEval_series_rhs (k : BinOp) (a : Value) (xs : List Int) :
    binEval k a (.series xs) = none := by
  cases k <;> cases a <;> rfl

/-- No binary operator in the modelled table accepts a bound method as
right operand. -/
theorem binEval_vmethod_rhs (k : BinOp) (a r : Value) (n : String) :
    binEval k a (.vmethod r n) = none := by
  cases k <;> cases a <;> rfl

set_option maxHeartbeats 1000000 in
/-- Binary operators produce plain data values. -/
theorem binEval_data {k : BinOp} {a b w : Value} (h : binEval k a b = some w) :
    isDataV w = true := by
  unfold binEval at h
  split at h <;> try split at h
  all_goals
    first
      | (injection h with h2; subst h2; rfl)
      | (rcases Option.map_eq_some'.mp h with ⟨ys, hys, hw⟩; subst hw; rfl)
      | simp at h

/-- Unary operators produce plain data values. -/
theorem unEval_data {k : UnOp} {a w : Value} (h : unEval k a = some w) :
    isDataV w = true := by
  unfold unEval at h
  split at h
  all_goals
    first
      | (injection h with h2; subst h2; rfl)
      | simp at h

/-- Plain data values are not callable. -/
theorem callV_data_none {u : Value} (h : isDataV u = true)
    (args : List Value) (kw : List (String × Value)) : callV u args kw = none := by
  cases u <;> first | rfl | simp [isDataV] at h

/-- Successful method dispatch produces a plain data value. -/
theorem callMethod_data {r : Value} {n : String} {args : List Value} {w : Value}
    (h : callMethod r n args = some w) : isDataV w = true := by
  unfold callMethod at h
  split at h
  all_goals
    first
      | (injection h with h2; subst h2; rfl)
      | (rename_i xs; rcases xs with _ | ⟨y, ys⟩ <;>
          simp only [seriesMax] at h <;>
          first | (subst h; rfl) | (injection h with h2; subst h2; rfl) | simp at h)
      | simp at h

/-- A successful non-`hvplot` method call took no keyword arguments and
produced a plain data value. -/
theorem callV_kw_empty {r : Value} {n : String} {args : List Value}
    {kw : List (String × Value)} {w : Value}
    (h : callV (.vmethod r n) args kw = some w) (hn : n ≠ "hvplot") :
    kw = [] ∧ isDataV w = true := by
  simp only [callV] at h
  rw [if_neg hn] at h
  rcases hkw : kw with _ | ⟨p, rest⟩
  · subst hkw
    simp only [List.isEmpty_nil, if_true] at h
    exact ⟨rfl, callMethod_data h⟩
  · subst hkw
    simp at h

/-- Successful method dispatch names one of the modelled methods. -/
theorem callMethod_name {r : Value} {n : String} {args : List Value} {w : Value}
    (h : callMethod r n args = some w) :
    n = "max" ∨ n = "sum" ∨ n = "head" := by
  unfold callMethod at h
  split at h
  · exact Or.inl rfl
  · exact Or.inr (Or.inl rfl)
  · exact Or.inr (Or.inr rfl)
  · exact Or.inr (Or.inr rfl)
  · simp at h

/-- A successful method call names one of the modelled methods. -/
theorem callV_name_dom {r : Value} {n : String} {args : List Value}
    {kw : List (String × Value)} {w : Value}
    (h : callV (.vmethod r n) args kw = some w) :
    n = "hvplot" ∨ n = "max" ∨ n = "sum" ∨ n = "head" := by
  simp only [callV] at h
  by_cases hn : n = "hvplot"
  · exact Or.inl hn
  · rw [if_neg hn] at h
    by_cases hkw : kw.isEmpty
    · rw [if_pos hkw] at h
      exact Or.inr (callMethod_name h)
    · rw [if_neg hkw] at h
      simp at h

/-- `dict(d)` with no overrides is `d`. -/
theorem pyUpdate_nil (d : List (String × Value)) : pyUpdate d [] = d := by
  simp [pyUpdate]

/-- `eval()` returns the narrowed current value when narrowing succeeds. -/
theorem evalI_of_narrow {st : IState} {cur : Value} (h : narrowCur st = some cur) :
    evalI st = cur := by
  cases hm : st.method with
  | none =>
      have h' : some st.current = some cur := by rw [← h]; simp [narrowCur, hm]
      have h2 := Option.some.inj h'
      simp [evalI, hm, h2]
  | some m =>
      have h' : getattrV st.current m = some cur := by rw [← h]; simp [narrowCur, hm]
      simp [evalI, hm, h']

/-- The pending method of an invariant-satisfying state narrows. -/
theorem sinv_nar {v : Value} {st : IState} (hI : SInv v st) :
    ∀ m, st.method = some m → (getattrV st.current m).isSome :=
  fun m hm => mem_dirV_getattr (hI.2.2.1 m hm).1

/-- `_resolve_accessor` on an applicable state: it succeeds, the new
node is method-free at depth + 1, carries the narrowed current value,
and the originating state loses at most its pending method. -/
theorem resolve_ok {st : IState}
    (happ : dimApply st.transform st.obj = some st.current)
    (hnar : ∀ m, st.method = some m → (getattrV st.current m).isSome) :
    ∃ n1 post cur, narrowCur st = some cur ∧
      resolveAccessorFull st = .ok (n1, post) ∧
      n1.obj = st.obj ∧ n1.fnWidgets = st.fnWidgets ∧ n1.method = none ∧
      n1.current = cur ∧ dimApply n1.transform st.obj = some cur ∧
      n1.depth = st.depth + 1 ∧
      (post = st ∨ post = { st with method := none }) := by
  cases hm : st.method with
  | none =>
      have hres : resolveAccessorFull st =
          .ok (⟨st.obj, st.fnWidgets, st.transform, none, st.plot, st.depth + 1,
                st.loc, st.center, st.dmap, st.inheritKw, st.maxRows, st.kwargs,
                st.current⟩, st) := by
        simp [resolveAccessorFull, hm, cloneI, initI, initWith, happ, pyUpdate_nil]
      exact ⟨_, _, st.current, by simp [narrowCur, hm], hres, rfl, rfl, rfl, rfl,
        happ, rfl, Or.inl rfl⟩
  | some m =>
      rcases Option.isSome_iff_exists.mp (hnar m hm) with ⟨u, hu⟩
      have happ2 : dimApply (Dim.getattrD st.transform m) st.obj = some u := by
        simp [dimApply, happ, hu]
      have hres : resolveAccessorFull st =
          .ok (⟨st.obj, st.fnWidgets, .getattrD st.transform m, none, st.plot,
                st.depth + 1, st.loc, st.center, st.dmap,
                (if m == "plot" then [("ax", .vnone)] else []), st.maxRows,
                pyUpdate st.inheritKw st.kwargs, u⟩, { st with method := none }) := by
        simp [resolveAccessorFull, hm, cloneI, initI, initWith, happ2, pyUpdate_nil]
      exact ⟨_, _, u, by simp [narrowCur, hm, hu], hres, rfl, rfl, rfl, rfl,
        happ2, rfl, Or.inr rfl⟩

/-- A data-resolving `__getattribute__` step: the new node caches the
narrowed current value and holds the accessed name as pending method,
which is a fresh public data-level name. -/
theorem attr_step {st st1 post : IState} {n : String}
    (happ : dimApply st.transform st.obj = some st.current)
    (hnar : ∀ m, st.method = some m → (getattrV st.current m).isSome)
    (hb : getattributeI st n = .ok (.data st1, post)) :
    ∃ cur c1, narrowCur st = some cur ∧ getattrV cur n = some c1 ∧
      st1.obj = st.obj ∧ st1.method = some n ∧ st1.current = cur ∧
      dimApply st1.transform st.obj = some cur ∧
      n ∈ dirV cur ∧ n ∉ ownSurface ∧ evalI st1 = c1 := by
  rcases resolve_ok happ hnar with
    ⟨n1, post', cur, hcur, hres, hobj1, _, hmeth1, hcur1, happ1, _, _⟩
  have hQ : (match st.method with
      | some m =>
          match getattrV st.current m with
          | some u => Except.ok u
          | none => Except.error PyErr.attributeError
      | none => Except.ok st.current) = (Except.ok cur : Except PyErr Value) := by
    cases hm : st.method with
    | none =>
        have : some st.current = some cur := by rw [← hcur]; simp [narrowCur, hm]
        simp [Option.some.inj this]
    | some m =>
        have h' : getattrV st.current m = some cur := by
          rw [← hcur]; simp [narrowCur, hm]
        simp [h']
  simp only [getattributeI] at hb
  rw [hQ] at hb
  simp only [] at hb
  by_cases hcnd : n ∈ (dirV cur).filter (fun d => !pyStartsUnderscore d) ∧ n ∉ ownSurface
  · rw [if_pos hcnd, hres] at hb
    have hb1 : AttrRes.data { n1 with method := some n } = AttrRes.data st1 ∧ post' = post := by
      have := Except.ok.inj hb
      exact ⟨congrArg Prod.fst this, congrArg Prod.snd this⟩
    obtain ⟨hb2, _⟩ := hb1
    injection hb2 with hb3
    have hmem : n ∈ dirV cur := (List.mem_filter.mp hcnd.1).1
    rcases Option.isSome_iff_exists.mp (mem_dirV_getattr hmem) with ⟨c1, hc1⟩
    refine ⟨cur, c1, hcur, hc1, ?_, ?_, ?_, ?_, hmem, hcnd.2, ?_⟩
    · rw [← hb3]; exact hobj1
    · rw [← hb3]
    · rw [← hb3]; exact hcur1
    · rw [← hb3]; exact happ1
    · rw [← hb3]
      simp [evalI, hcur1, hc1]
  · rw [if_neg hcnd] at hb
    have := Except.ok.inj hb
    have h2 := congrArg Prod.fst this
    simp at h2

/-- `_clone` in one equation: construction through `__init__` with the
merged fields, failing exactly when the transform fails to apply. -/
theorem cloneI_spec (st : IState) (t? : Option Dim) (pl : Bool) (lo : Option String)
    (ce dm : Option Bool) (cp : Bool) (ia : Option (List (String × Value)))
    (ek : List (String × Value)) :
    cloneI st t? pl lo ce dm cp ia ek =
      match dimApply (t?.getD st.transform) st.obj with
      | none => .error .applyError
      | some cur =>
          .ok ⟨st.obj, st.fnWidgets, t?.getD st.transform,
            (if cp then st.method else none), st.plot || pl, st.depth + 1,
            lo.getD st.loc, ce.getD st.center, dm.getD st.dmap,
            (if cp then ia.getD st.inheritKw else ia.getD []), st.maxRows,
            (if cp then pyUpdate st.kwargs ek
             else pyUpdate st.inheritKw (pyUpdate st.kwargs ek)), cur⟩ := by
  cases cp <;> simp [cloneI, initI, initWith]

/-- A clone whose transform applies is a fresh node with the merged
fields. -/
theorem cloneI_ok {st : IState} {t? : Option Dim} {pl : Bool} {lo : Option String}
    {ce dm : Option Bool} {cp : Bool} {ia : Option (List (String × Value))}
    {ek : List (String × Value)} {cur : Value}
    (h : dimApply (t?.getD st.transform) st.obj = some cur) :
    cloneI st t? pl lo ce dm cp ia ek =
      .ok ⟨st.obj, st.fnWidgets, t?.getD st.transform,
        (if cp then st.method else none), st.plot || pl, st.depth + 1,
        lo.getD st.loc, ce.getD st.center, dm.getD st.dmap,
        (if cp then ia.getD st.inheritKw else ia.getD []), st.maxRows,
        (if cp then pyUpdate st.kwargs ek
         else pyUpdate st.inheritKw (pyUpdate st.kwargs ek)), cur⟩ := by
  rw [cloneI_spec, h]

/-- A clone whose transform fails to apply propagates the failure. -/
theorem cloneI_err {st : IState} {t? : Option Dim} {pl : Bool} {lo : Option String}
    {ce dm : Option Bool} {cp : Bool} {ia : Option (List (String × Value))}
    {ek : List (String × Value)}
    (h : dimApply (t?.getD st.transform) st.obj = none) :
    cloneI st t? pl lo ce dm cp ia ek = .error .applyError := by
  rw [cloneI_spec, h]

/-- A `__call__` step on a state reached by a chain, compared with
calling the narrowed value directly. -/
theorem call_step {v : Value} {st st1 : IState} {args : List Value} {c1 : Value}
    (hI : SInv v st) (hb : interactiveCall st args [] = .ok st1)
    (hr : callV (evalI st) args [] = some c1) :
    SInv v st1 ∧ evalI st1 = c1 ∧ st1.method = none := by
  obtain ⟨hobj, happ, hmeth, hplain⟩ := hI
  have happ2 : dimApply st.transform st.obj = some st.current := by rw [hobj]; exact happ
  cases hm : st.method with
  | none =>
      have hev : evalI st = st.current := by simp [evalI, hm]
      rw [hev, callV_data_none (hplain hm) args []] at hr
      exact absurd hr (by simp)
  | some m =>
      obtain ⟨hmem, hown⟩ := hmeth m hm
      rcases Option.isSome_iff_exists.mp (mem_dirV_getattr hmem) with ⟨u, hu⟩
      have hev : evalI st = u := by simp [evalI, hm, hu]
      rw [hev] at hr
      rcases getattrV_shape hu with hvm | ⟨xs, hxs⟩
      · subst hvm
        have hhv : m ≠ "hvplot" := by
          intro hcontra
          rw [hcontra] at hown
          exact hown (by simp [ownSurface])
        have hdom3 : m = "max" ∨ m = "sum" ∨ m = "head" := by
          rcases callV_name_dom hr with h | h
          · exact absurd h hhv
          · exact h
        have hplot : (m == "plot") = false := by
          rcases hdom3 with rfl | rfl | rfl <;> decide
        have hclone1 := @cloneI_ok st none false none none none true none [] _ happ2
        simp only [interactiveCall, hm] at hb
        simp only [hplot, Bool.false_eq_true, if_false, hclone1] at hb
        simp only [pyUpdate_nil, Option.getD_some, Bool.or_false, if_true] at hb
        have hdim : dimApply
            (Dim.callD (.getattrD st.transform m) args st.inheritKw) st.obj
            = callV (.vmethod st.current m) args st.inheritKw := by
          simp [dimApply, happ2, hu]
        cases hcv : callV (.vmethod st.current m) args st.inheritKw with
        | none =>
            rw [hcv] at hdim
            rw [cloneI_err (by simpa using hdim)] at hb
            exact absurd hb (by simp)
        | some cur2 =>
            rw [hcv] at hdim
            rw [cloneI_ok (by simpa using hdim)] at hb
            have hlit := Except.ok.inj hb
            obtain ⟨hkw0, hdat⟩ := callV_kw_empty hcv hhv
            rw [hkw0] at hcv
            rw [hcv] at hr
            have hc12 : cur2 = c1 := Option.some.inj hr
            subst hc12
            refine ⟨⟨?_, ?_, ?_, ?_⟩, ?_, ?_⟩
            · rw [← hlit]; exact hobj
            · rw [← hlit]
              simp only []
              rw [← hobj]
              simpa using hdim
            · rw [← hlit]
              intro m2 hm2
              simp at hm2
            · rw [← hlit]
              intro _
              exact hdat
            · rw [← hlit]
              simp [evalI]
            · rw [← hlit]
              simp
      · subst hxs
        rw [callV_data_none (by rfl) args []] at hr
        exact absurd hr (by simp)

/-- Cloning an accessor-resolved node with an extended transform that
applies successfully: the fields the simulation tracks. -/
theorem clone_end {v y : Value} {n1 st1 : IState} {t : Dim}
    (hv1 : n1.obj = v)
    (hdim : dimApply t n1.obj = some y)
    (hb : cloneI n1 (some t) false none none none false none [] = .ok st1) :
    st1.current = y ∧ st1.obj = v ∧ st1.method = none ∧
      dimApply st1.transform v = some y := by
  rw [cloneI_ok (by simpa using hdim)] at hb
  have hlit := Except.ok.inj hb
  have hfc : st1.current = y := by rw [← hlit]
  have hfo : st1.obj = n1.obj := by rw [← hlit]
  have hfm : st1.method = none := by rw [← hlit]; simp
  have hft : dimApply st1.transform v = some y := by
    rw [← hlit]
    show dimApply t v = some y
    rw [← hv1]
    exact hdim
  exact ⟨hfc, hfo.trans hv1, hfm, hft⟩

/-- Cloning with a transform that fails to apply cannot succeed. -/
theorem clone_end_err {n1 st1 : IState} {t : Dim}
    (hdim : dimApply t n1.obj = none)
    (hb : cloneI n1 (some t) false none none none false none [] = .ok st1) :
    False := by
  rw [cloneI_err (by simpa using hdim)] at hb
  exact absurd hb (by simp)

/-- The plain `_apply_operator` node is the first component of the
instrumented version that also reports the originating state. -/
theorem applyOperatorNew_eq_full (st : IState) (k : BinOp)
    (other : Sum Dim Value) (rev : Bool) :
    applyOperatorNew st k other rev =
      match applyOperatorFull st k other rev with
      | .error e => .error e
      | .ok p => .ok p.1 := by
  simp only [applyOperatorNew, applyOperatorFull, resolveAccessorNew]
  cases hres : resolveAccessorFull st with
  | error e => rfl
  | ok p =>
      cases other with
      | inl d =>
          cases hc : cloneI p.1 (some (Dim.binE p.1.transform k d rev))
              false none none none false none [] <;> simp [hc]
      | inr x =>
          cases hc : cloneI p.1 (some (Dim.binV p.1.transform k x rev))
              false none none none false none [] <;> simp [hc]

/-- The plain unary `_apply_operator` node is the first component of the
instrumented version. -/
theorem applyUnaryNew_eq_full (st : IState) (k : UnOp) :
    applyUnaryNew st k =
      match applyUnaryFull st k with
      | .error e => .error e
      | .ok p => .ok p.1 := by
  simp only [applyUnaryNew, applyUnaryFull, resolveAccessorNew]
  cases hres : resolveAccessorFull st with
  | error e => rfl
  | ok p =>
      cases hc : cloneI p.1 (some (.unD p.1.transform k))
          false none none none false none [] <;> simp [hc]

/-- An `_apply_operator` step for a binary operator with an already
evaluated operand, compared with evaluating the operator directly. -/
theorem apply_op_step {v : Value} {st st1 : IState} {k : BinOp}
    {other : Sum Dim Value} {w : Value}
    (hI : SInv v st) (hop : operandEval other v = some w)
    (hb : applyOperatorNew st k other false = .ok st1) :
    binEval k (evalI st) w = some st1.current ∧ SInv v st1 ∧
      st1.method = none ∧ evalI st1 = st1.current := by
  obtain ⟨hobj, happ, hmeth, hplain⟩ := hI
  have happ2 : dimApply st.transform st.obj = some st.current := by rw [hobj]; exact happ
  rcases resolve_ok happ2 (fun m hm => mem_dirV_getattr (hmeth m hm).1) with
    ⟨n1, post, cur, hcur, hres, hobj1, _, hmeth1, hcur1, happ1, _, _⟩
  have hevst : evalI st = cur := evalI_of_narrow hcur
  have hv1 : n1.obj = v := hobj1.trans hobj
  have hresN : resolveAccessorNew st = .ok n1 := by simp [resolveAccessorNew, hres]
  simp only [applyOperatorNew, hresN] at hb
  cases other with
  | inr x =>
      have hwx : w = x := (Option.some.inj hop).symm
      subst hwx
      have hdim : dimApply (Dim.binV n1.transform k w false) n1.obj
          = binEval k cur w := by
        simp [dimApply, hobj1, happ1]
      cases hbe : binEval k cur w with
      | none =>
          rw [hbe] at hdim
          exact (clone_end_err hdim hb).elim
      | some cur2 =>
          rw [hbe] at hdim
          obtain ⟨hfc, hfo, hfm, hft⟩ := clone_end hv1 hdim hb
          refine ⟨?_, ⟨hfo, ?_, ?_, ?_⟩, hfm, ?_⟩
          · rw [hevst, hfc]; exact hbe
          · rw [hfc]; exact hft
          · intro m2 hm2
            rw [hfm] at hm2
            exact absurd hm2 (by simp)
          · intro _
            rw [hfc]
            exact binEval_data hbe
          · simp [evalI, hfm]
  | inl d =>
      have hop2 : dimApply d st.obj = some w := by rw [hobj]; exact hop
      have hdim : dimApply (Dim.binE n1.transform k d false) n1.obj
          = binEval k cur w := by
        simp [dimApply, hobj1, happ1, hop2]
      cases hbe : binEval k cur w with
      | none =>
          rw [hbe] at hdim
          exact (clone_end_err hdim hb).elim
      | some cur2 =>
          rw [hbe] at hdim
          obtain ⟨hfc, hfo, hfm, hft⟩ := clone_end hv1 hdim hb
          refine ⟨?_, ⟨hfo, ?_, ?_, ?_⟩, hfm, ?_⟩
          · rw [hevst, hfc]; exact hbe
          · rw [hfc]; exact hft
          · intro m2 hm2
            rw [hfm] at hm2
            exact absurd hm2 (by simp)
          · intro _
            rw [hfc]
            exact binEval_data hbe
          · simp [evalI, hfm]

/-- An `_apply_operator` step for a unary operator. -/
theorem un_step {v : Value} {st st1 : IState} {k : UnOp}
    (hI : SInv v st) (hb : applyUnaryNew st k = .ok st1) :
    unEval k (evalI st) = some st1.current ∧ SInv v st1 ∧
      st1.method = none ∧ evalI st1 = st1.current := by
  obtain ⟨hobj, happ, hmeth, hplain⟩ := hI
  have happ2 : dimApply st.transform st.obj = some st.current := by rw [hobj]; exact happ
  rcases resolve_ok happ2 (fun m hm => mem_dirV_getattr (hmeth m hm).1) with
    ⟨n1, post, cur, hcur, hres, hobj1, _, hmeth1, hcur1, happ1, _, _⟩
  have hevst : evalI st = cur := evalI_of_narrow hcur
  have hv1 : n1.obj = v := hobj1.trans hobj
  have hresN : resolveAccessorNew st = .ok n1 := by simp [resolveAccessorNew, hres]
  simp only [applyUnaryNew, hresN] at hb
  have hdim : dimApply (Dim.unD n1.transform k) n1.obj = unEval k cur := by
    simp [dimApply, hobj1, happ1]
  cases hbe : unEval k cur with
  | none =>
      rw [hbe] at hdim
      exact (clone_end_err hdim hb).elim
  | some cur2 =>
      rw [hbe] at hdim
      obtain ⟨hfc, hfo, hfm, hft⟩ := clone_end hv1 hdim hb
      refine ⟨?_, ⟨hfo, ?_, ?_, ?_⟩, hfm, ?_⟩
      · rw [hevst, hfc]; exact hbe
      · rw [hfc]; exact hft
      · intro m2 hm2
        rw [hfm] at hm2
        exact absurd hm2 (by simp)
      · intro _
        rw [hfc]
        exact unEval_data hbe
      · simp [evalI, hfm]

/-- The identity transform `__init__` selects for a data value applies
to it as the identity. -/
theorem initTransformFor_apply {v : Value} {t : Dim} (hv : isDataV v = true)
    (hT : initTransformFor v = .ok t) : dimApply t v = some v := by
  cases v with
  | xarr nm xs =>
      cases nm with
      | none => simp [initTransformFor, isXArray, isDataArray, xname] at hT
      | some n =>
          simp [initTransformFor, isXArray, isDataArray, xname] at hT
          rw [← hT]
          by_cases hn : n = "*" <;> simp [dimApply, hn]
  | xds cols =>
      simp [initTransformFor, isXArray, isDataArray] at hT
      rw [← hT]
      simp [dimApply]
  | frame cols =>
      simp [initTransformFor, isXArray, isTabular] at hT
      rw [← hT]
      simp [dimApply]
  | series xs =>
      simp [initTransformFor, isXArray, isTabular] at hT
      rw [← hT]
      simp [dimApply]
  | bseries bs =>
      simp [initTransformFor, isXArray, isTabular] at hT
      rw [← hT]
      simp [dimApply]
  | vnone =>
      simp [initTransformFor, isXArray, isTabular] at hT
      rw [← hT]
      simp [dimApply]
  | vint n =>
      simp [initTransformFor, isXArray, isTabular] at hT
      rw [← hT]
      simp [dimApply]
  | vbool b =>
      simp [initTransformFor, isXArray, isTabular] at hT
      rw [← hT]
      simp [dimApply]
  | vstr s =>
      simp [initTransformFor, isXArray, isTabular] at hT
      rw [← hT]
      simp [dimApply]
  | vmethod r n => simp [isDataV] at hv
  | pane cols mr kw => simp [isDataV] at hv
  | plotObj k => simp [isDataV] at hv

/-- A successfully constructed root wrapper satisfies the root
invariant. -/
theorem root_inv {v : Value} {r : IState} (hv : isDataV v = true)
    (h : initRoot v = .ok r) : RootInv v r := by
  simp only [initRoot, initI] at h
  cases hT : initTransformFor v with
  | error e => rw [hT] at h; exact absurd h (by simp)
  | ok t =>
      rw [hT] at h
      have happly : dimApply t v = some v := initTransformFor_apply hv hT
      simp only [initWith, happly] at h
      have hlit := Except.ok.inj h
      have hobj : r.obj = v := by rw [← hlit]
      have htr : r.transform = t := by rw [← hlit]
      have hcur : r.current = v := by rw [← hlit]
      have hm : r.method = none := by rw [← hlit]
      refine ⟨⟨hobj, ?_, ?_, ?_⟩, hm, hcur⟩
      · rw [htr, hcur]; exact happly
      · intro m hmm
        rw [hm] at hmm
        exact absurd hmm (by simp)
      · intro _
        rw [hcur]
        exact hv

/-- The simulation: replaying a chain of recorded operations through
the wrapper machinery, starting from any invariant state, tracks
replaying it directly on the data value. -/
theorem build_sim : ∀ (fb fr : Nat) (c : List COp) (r st st' : IState)
    (v res : Value),
    RootInv v r → SInv v st →
    buildChain fb r st c = .ok st' →
    runChainAux fr v (evalI st) c = some res →
    SInv v st' ∧ evalI st' = res := by
  intro fb
  induction fb using Nat.strong_induction_on with
  | _ fb ih =>
    intro fr c r st st' v res hR hI hb hr
    cases fb with
    | zero => simp [buildChain] at hb
    | succ fb1 =>
      cases c with
      | nil =>
          cases fr with
          | zero => simp [runChainAux] at hr
          | succ fr1 =>
              simp only [buildChain] at hb
              simp only [runChainAux] at hr
              have hst : st = st' := Except.ok.inj hb
              have hres2 : evalI st = res := Option.some.inj hr
              exact ⟨hst ▸ hI, hst ▸ hres2⟩
      | cons op rest =>
          cases fr with
          | zero => simp [runChainAux] at hr
          | succ fr1 =>
              simp only [buildChain] at hb
              simp only [runChainAux] at hr
              cases hop : buildOpW fb1 r st op with
              | error e =>
                  rw [hop] at hb
                  exact absurd hb (by simp)
              | ok st1 =>
                  rw [hop] at hb
                  try simp only [] at hb
                  cases hro : runOpD fr1 v (evalI st) op with
                  | none =>
                      rw [hro] at hr
                      simp at hr
                  | some c1 =>
                      rw [hro] at hr
                      try simp only [] at hr
                      have hstep : SInv v st1 ∧ evalI st1 = c1 := by
                        cases op with
                        | attr n =>
                            cases fb1 with
                            | zero => simp [buildOpW] at hop
                            | succ fb2 =>
                              cases fr1 with
                              | zero => simp [runOpD] at hro
                              | succ fr2 =>
                                simp only [runOpD] at hro
                                simp only [buildOpW] at hop
                                cases hg : getattributeI st n with
                                | error e => rw [hg] at hop; simp at hop
                                | ok p =>
                                    rw [hg] at hop
                                    obtain ⟨pr, post⟩ := p
                                    cases pr with
                                    | own => simp at hop
                                    | data s2 =>
                                        have hs2 : s2 = st1 := by
                                          simpa using hop
                                        subst hs2
                                        have happ2 : dimApply st.transform st.obj
                                            = some st.current := by
                                          rw [hI.1]; exact hI.2.1
                                        rcases attr_step happ2 (sinv_nar hI) hg with
                                          ⟨cur, c1', hcur, hc1', hobjA, hmethA,
                                           hcurA, happA, hmemA, hownA, hevA⟩
                                        have hevst : evalI st = cur :=
                                          evalI_of_narrow hcur
                                        rw [hevst] at hro
                                        have hcc : c1' = c1 := by
                                          rw [hc1'] at hro
                                          exact Option.some.inj hro
                                        refine ⟨⟨hobjA.trans hI.1, ?_, ?_, ?_⟩, ?_⟩
                                        · rw [hcurA, ← hI.1]; exact happA
                                        · intro m2 hm2
                                          rw [hmethA] at hm2
                                          have : n = m2 := Option.some.inj hm2
                                          subst this
                                          rw [hcurA]
                                          exact ⟨hmemA, hownA⟩
                                        · intro habs
                                          rw [hmethA] at habs
                                          exact absurd habs (by simp)
                                        · rw [hevA]; exact hcc
                        | callN args =>
                            cases fb1 with
                            | zero => simp [buildOpW] at hop
                            | succ fb2 =>
                              cases fr1 with
                              | zero => simp [runOpD] at hro
                              | succ fr2 =>
                                simp only [runOpD] at hro
                                simp only [buildOpW] at hop
                                obtain ⟨hSI, hev, _⟩ := call_step hI hop hro
                                exact ⟨hSI, hev⟩
                        | binL k x =>
                            cases fb1 with
                            | zero => simp [buildOpW] at hop
                            | succ fb2 =>
                              cases fr1 with
                              | zero => simp [runOpD] at hro
                              | succ fr2 =>
                                simp only [runOpD] at hro
                                simp only [buildOpW] at hop
                                obtain ⟨hbeq, hSI, _, hev⟩ :=
                                  apply_op_step hI (rfl :
                                    operandEval (.inr x) v = some x) hop
                                rw [hbeq] at hro
                                exact ⟨hSI, hev.trans (Option.some.inj hro)⟩
                        | un k =>
                            cases fb1 with
                            | zero => simp [buildOpW] at hop
                            | succ fb2 =>
                              cases fr1 with
                              | zero => simp [runOpD] at hro
                              | succ fr2 =>
                                simp only [runOpD] at hro
                                simp only [buildOpW] at hop
                                obtain ⟨hbeq, hSI, _, hev⟩ := un_step hI hop
                                rw [hbeq] at hro
                                exact ⟨hSI, hev.trans (Option.some.inj hro)⟩
                        | binW k sub =>
                            cases fb1 with
                            | zero => simp [buildOpW] at hop
                            | succ fb2 =>
                              cases fr1 with
                              | zero => simp [runOpD] at hro
                              | succ fr2 =>
                                simp only [runOpD] at hro
                                simp only [buildOpW] at hop
                                cases hbs : buildChain fb2 r r sub with
                                | error e => rw [hbs] at hop; simp at hop
                                | ok s =>
                                    rw [hbs] at hop
                                    try simp only [] at hop
                                    cases hrs : runChainAux fr2 v v sub with
                                    | none => rw [hrs] at hro; simp at hro
                                    | some w =>
                                        rw [hrs] at hro
                                        try simp only [] at hro
                                        have hevr : evalI r = v := by
                                          simp [evalI, hR.2.1, hR.2.2]
                                        have hrs2 : runChainAux fr2 v (evalI r) sub
                                            = some w := by
                                          rw [hevr]; exact hrs
                                        obtain ⟨hSIs, hevs⟩ :=
                                          ih fb2 (by omega) fr2 sub r r s v w
                                            hR hR.1 hbs hrs2
                                        cases hms : s.method with
                                        | none =>
                                            have hws : w = s.current := by
                                              rw [← hevs]
                                              simp [evalI, hms]
                                            have hopnd : operandEval
                                                (.inl s.transform) v = some w := by
                                              rw [hws]
                                              exact hSIs.2.1
                                            obtain ⟨hbeq, hSI, _, hev⟩ :=
                                              apply_op_step hI hopnd hop
                                            rw [hbeq] at hro
                                            exact ⟨hSI,
                                              hev.trans (Option.some.inj hro)⟩
                                        | some m =>
                                            obtain ⟨hmem, _⟩ := hSIs.2.2.1 m hms
                                            rcases Option.isSome_iff_exists.mp
                                              (mem_dirV_getattr hmem) with ⟨u, hu⟩
                                            have hwu : w = u := by
                                              rw [← hevs]
                                              simp [evalI, hms, hu]
                                            rcases getattrV_shape hu with
                                              hvm | ⟨xs, hxs⟩
                                            · rw [hwu, hvm,
                                                binEval_vmethod_rhs] at hro
                                              exact absurd hro (by simp)
                                            · rw [hwu, hxs,
                                                binEval_series_rhs] at hro
                                              exact absurd hro (by simp)
                      exact ih fb1 (by omega) fr1 rest r st1 st' v res hR
                        hstep.1 hb (by rw [hstep.2]; exact hr)

/-- C1: for every data value and every finite sequence of recorded
operations (attribute accesses that resolve to data-level names,
unary/binary operators, indexing, and calls) that the wrapper machinery
replays successfully, `eval()` on the resulting wrapper node returns the
same value as applying that same sequence directly to the underlying
data value. -/
theorem C1_eval_matches_direct (fb fr : Nat) (v res : Value) (c : List COp)
    (r st : IState)
    (hv : isDataV v = true)
    (hroot : initRoot v = .ok r)
    (hbuild : buildChain fb r r c = .ok st)
    (hrun : runChainAux fr v v c = some res) :
    evalI st = res := by
  have hR := root_inv hv hroot
  have hevr : evalI r = v := by simp [evalI, hR.2.1, hR.2.2]
  exact (build_sim fb fr c r r st v res hR hR.1 hbuild
    (by rw [hevr]; exact hrun)).2

/-- Witness for C1: the concrete scenario over column `A = [1, 2, 3]` —
`w.A.max()` evaluates to `3`, `w.A > 1` to `[False, True, True]` and
`w[w.A > 1]` to the two matching rows. -/
theorem C1_eval_matches_direct_witness :
    evalI (exState (buildChain 9 rW rW chainMaxW)) = .vint 3 ∧
    evalI (exState (buildChain 9 rW rW chainGtW)) = .bseries [false, true, true] ∧
    evalI (exState (buildChain 9 rW rW chainFilterW)) = .frame [("A", [2, 3])] :=
  ⟨C1_eval_matches_direct 9 9 vW (.vint 3) chainMaxW rW
      (exState (buildChain 9 rW rW chainMaxW)) rfl rfl (by rfl) (by rfl),
   C1_eval_matches_direct 9 9 vW (.bseries [false, true, true]) chainGtW rW
      (exState (buildChain 9 rW rW chainGtW)) rfl rfl (by rfl) (by rfl),
   C1_eval_matches_direct 9 9 vW (.frame [("A", [2, 3])]) chainFilterW rW
      (exState (buildChain 9 rW rW chainFilterW)) rfl rfl (by rfl) (by rfl)⟩

/-- C2 (code bug): `__radd__` looks up `operator.div`, which does not
exist in Python 3, so every reflected addition `x + w` raises
`AttributeError` instead of appending a reflected addition node — while
direct addition of the same operands is defined, and the reflected
subtraction pair `w.__rsub__` / `w.__sub__` does evaluate to mutually
negated results (`1 - 5` versus `5 - 1`). -/
theorem C2_radd_applies_div :
    (∀ (st : IState) (other : Sum Dim Value),
        raddI st other = .error .attributeError)
    ∧ binEval .add (.vint 1) (.vint 5) = some (.vint 6)
    ∧ (∃ st1, rsubI r5W (.inr (.vint 1)) = .ok st1 ∧ evalI st1 = .vint (1 - 5))
    ∧ (∃ st1, subI r5W (.inr (.vint 1)) = .ok st1 ∧ evalI st1 = .vint (5 - 1)) :=
  ⟨fun _ _ => rfl, rfl,
   ⟨exState (rsubI r5W (.inr (.vint 1))), rfl, rfl⟩,
   ⟨exState (subI r5W (.inr (.vint 1))), rfl, rfl⟩⟩

/-- C3 (counterexample): a transform whose application to the source
fails makes construction itself fail — the failure is not swallowed at
construction time (here: accessing the missing column `B` of the
scenario frame). -/
theorem C3_counterexample :
    dimApply badTransformW vW = none ∧
    initI vW (some badTransformW) [] false 0 "top_left" false false [] 100
      none [] = .error .applyError :=
  ⟨rfl, rfl⟩

/-- C3 (amended): `__init__` eagerly computes the current value; a
transform whose application fails makes construction fail with that
error, and a successfully constructed node has its current value cached
from that eager application (so `eval()` cannot newly fail). -/
theorem C3_error_at_construction :
    (∀ (obj : Value) (t : Dim) (fnW : List (Option Nat)) (plot : Bool)
        (depth : Nat) (loc : String) (center dmap : Bool)
        (inh : List (String × Value)) (mr : Nat) (meth : Option String)
        (kw : List (String × Value)),
      dimApply t obj = none →
      initI obj (some t) fnW plot depth loc center dmap inh mr meth kw
        = .error .applyError)
    ∧ (∀ (obj : Value) (t : Dim) (fnW : List (Option Nat)) (plot : Bool)
        (depth : Nat) (loc : String) (center dmap : Bool)
        (inh : List (String × Value)) (mr : Nat) (meth : Option String)
        (kw : List (String × Value)) (st : IState),
      initI obj (some t) fnW plot depth loc center dmap inh mr meth kw
        = .ok st →
      dimApply t obj = some st.current) := by
  constructor
  · intro obj t fnW plot depth loc center dmap inh mr meth kw h
    simp [initI, initWith, h]
  · intro obj t fnW plot depth loc center dmap inh mr meth kw st h
    simp only [initI, initWith] at h
    cases hda : dimApply t obj with
    | none => rw [hda] at h; exact absurd h (by simp)
    | some cur =>
        rw [hda] at h
        try simp only [] at h
        have hlit := Except.ok.inj h
        have : st.current = cur := by rw [← hlit]
        rw [this]

/-- Witness for C3 (amended): a different failing transform (missing
column `C`, at depth three) fails at construction, and the scenario
root's construction cached the identity application. -/
theorem C3_error_at_construction_witness :
    initI vW (some (.getattrD (.root .df "*") "C")) [] false 3 "top" true true
      [] 50 none [] = .error .applyError ∧
    dimApply (Dim.root .df "*") vW = some rW.current :=
  ⟨C3_error_at_construction.1 vW (.getattrD (.root .df "*") "C") [] false 3
      "top" true true [] 50 none [] rfl,
   C3_error_at_construction.2 vW (.root .df "*") [] false 0 "top_left" false
      false [] 100 none [] rW rfl⟩

/-- C4: constructing a wrapper with no preexisting transform raises the
unnamed-DataArray error (the spec's `ConfigurationError`, a `ValueError`
in the code) exactly when the source is an unnamed array; no other
source triggers it, so this is the only eager validation. -/
theorem C4_unnamed_dataarray (obj : Value) (fnW : List (Option Nat))
    (plot : Bool) (depth : Nat) (loc : String) (center dmap : Bool)
    (inh : List (String × Value)) (mr : Nat) (meth : Option String)
    (kw : List (String × Value)) :
    initI obj none fnW plot depth loc center dmap inh mr meth kw
        = .error .valueError
      ↔ isDataArray obj = true ∧ xname obj = none := by
  cases obj with
  | xarr nm xs =>
      cases nm with
      | none =>
          simp [initI, initTransformFor, isXArray, isDataArray, xname]
      | some n =>
          by_cases hn : n = "*" <;>
            simp [initI, initTransformFor, initWith, isXArray, isDataArray,
              xname, dimApply, hn]
  | vnone =>
      simp [initI, initTransformFor, initWith, isXArray, isTabular,
        isDataArray, dimApply]
  | vint n =>
      simp [initI, initTransformFor, initWith, isXArray, isTabular,
        isDataArray, dimApply]
  | vbool b =>
      simp [initI, initTransformFor, initWith, isXArray, isTabular,
        isDataArray, dimApply]
  | vstr s =>
      simp [initI, initTransformFor, initWith, isXArray, isTabular,
        isDataArray, dimApply]
  | series xs =>
      simp [initI, initTransformFor, initWith, isXArray, isTabular,
        isDataArray, dimApply]
  | bseries bs =>
      simp [initI, initTransformFor, initWith, isXArray, isTabular,
        isDataArray, dimApply]
  | frame cols =>
      simp [initI, initTransformFor, initWith, isXArray, isTabular,
        isDataArray, dimApply]
  | xds cols =>
      simp [initI, initTransformFor, initWith, isXArray, isTabular,
        isDataArray, dimApply]
  | vmethod r n =>
      simp [initI, initTransformFor, initWith, isXArray, isTabular,
        isDataArray, dimApply]
  | pane cols mr2 kw2 =>
      simp [initI, initTransformFor, initWith, isXArray, isTabular,
        isDataArray, dimApply]
  | plotObj k =>
      simp [initI, initTransformFor, initWith, isXArray, isTabular,
        isDataArray, dimApply]

/-- C5: attribute access by name `n` resolves to a new wrapper node with
pending method `n` exactly when `n` is a public attribute of the current
value (narrowed by any pending method) and not on the wrapper's own
surface; a name both on the data and on the wrapper surface yields the
wrapper's own attribute (masking), and a leading-underscore name always
resolves to the wrapper's own state. -/
theorem C5_attribute_resolution (st : IState) (cur : Value) (name : String)
    (hwf : dimApply st.transform st.obj = some st.current)
    (hcur : narrowCur st = some cur) :
    ((∃ st1 post, getattributeI st name = .ok (.data st1, post) ∧
        st1.method = some name) ↔
      (name ∈ (dirV cur).filter (fun d => !pyStartsUnderscore d) ∧
        name ∉ ownSurface))
    ∧ (name ∈ dirV cur → name ∈ ownSurface →
        getattributeI st name = .ok (.own, st))
    ∧ (pyStartsUnderscore name = true →
        getattributeI st name = .ok (.own, st)) := by
  have hnar : ∀ m, st.method = some m → (getattrV st.current m).isSome := by
    intro m hm
    have h' : getattrV st.current m = some cur := by
      rw [← hcur]; simp [narrowCur, hm]
    simp [h']
  have hQ : (match st.method with
      | some m =>
          match getattrV st.current m with
          | some u => Except.ok u
          | none => Except.error PyErr.attributeError
      | none => Except.ok st.current) = (Except.ok cur : Except PyErr Value) := by
    cases hm : st.method with
    | none =>
        have h' : some st.current = some cur := by rw [← hcur]; simp [narrowCur, hm]
        simp [Option.some.inj h']
    | some m =>
        have h' : getattrV st.current m = some cur := by
          rw [← hcur]; simp [narrowCur, hm]
        simp [h']
  have hget : getattributeI st name =
      (if name ∈ (dirV cur).filter (fun d => !pyStartsUnderscore d) ∧
          name ∉ ownSurface then
        match resolveAccessorFull st with
        | .error e => .error e
        | .ok p => .ok (.data { p.1 with method := some name }, p.2)
      else .ok (.own, st)) := by
    simp only [getattributeI]
    rw [hQ]
  by_cases hcnd : name ∈ (dirV cur).filter (fun d => !pyStartsUnderscore d) ∧
      name ∉ ownSurface
  · rcases resolve_ok hwf hnar with ⟨n1, post, cur2, _, hres, _⟩
    rw [hget, if_pos hcnd, hres]
    refine ⟨⟨fun _ => hcnd, fun _ => ⟨_, _, rfl, rfl⟩⟩, ?_, ?_⟩
    · intro _ hownm
      exact absurd hownm hcnd.2
    · intro hus
      have hmf := (List.mem_filter.mp hcnd.1).2
      rw [hus] at hmf
      simp at hmf
  · rw [hget, if_neg hcnd]
    refine ⟨⟨?_, fun hc => absurd hc hcnd⟩, fun _ _ => rfl, fun _ => rfl⟩
    rintro ⟨st1, post, hEq, _⟩
    exact absurd (congrArg Prod.fst (Except.ok.inj hEq)) (by simp)

/-- Witness for C5: on the scenario frame, `w.A` resolves to a data
accessor with pending method `A`. -/
theorem C5_attribute_resolution_witness :
    ∃ st1 post, getattributeI rW "A" = .ok (.data st1, post) ∧
      st1.method = some "A" :=
  (C5_attribute_resolution rW vW "A" (by rfl) (by rfl)).1.mpr (by decide)

/-- A successful clone sits one level deeper than its origin. -/
theorem cloneI_ok_depth {st : IState} {t? : Option Dim} {pl : Bool}
    {lo : Option String} {ce dm : Option Bool} {cp : Bool}
    {ia : Option (List (String × Value))} {ek : List (String × Value)}
    {n : IState}
    (h : cloneI st t? pl lo ce dm cp ia ek = .ok n) :
    n.depth = st.depth + 1 := by
  rw [cloneI_spec] at h
  cases hd : dimApply (t?.getD st.transform) st.obj with
  | none => rw [hd] at h; exact absurd h (by simp)
  | some cur =>
      rw [hd] at h
      try simp only [] at h
      have hlit := Except.ok.inj h
      rw [← hlit]

/-- `_resolve_accessor` success: the new node is one level deeper and
the originating state loses at most its pending method. -/
theorem resolveAccessorFull_ok_inv {st : IState} {p : IState × IState}
    (h : resolveAccessorFull st = .ok p) :
    p.1.depth = st.depth + 1 ∧
      (p.2 = st ∨ p.2 = { st with method := none }) := by
  unfold resolveAccessorFull at h
  cases hm : st.method with
  | none =>
      rw [hm] at h
      try simp only [] at h
      cases hc : cloneI st none false none none none true none [] with
      | error e => rw [hc] at h; exact absurd h (by simp)
      | ok n =>
          rw [hc] at h
          try simp only [] at h
          have hlit := Except.ok.inj h
          constructor
          · have h1 : p.1 = n := by rw [← hlit]
            rw [h1]
            exact cloneI_ok_depth hc
          · have h2 : p.2 = st := by rw [← hlit]
            exact Or.inl h2
  | some m =>
      rw [hm] at h
      try simp only [] at h
      cases hc : cloneI st (some (.getattrD st.transform m)) false none none
          none false (some (if m == "plot" then [("ax", .vnone)] else [])) [] with
      | error e => rw [hc] at h; exact absurd h (by simp)
      | ok n =>
          rw [hc] at h
          try simp only [] at h
          have hlit := Except.ok.inj h
          constructor
          · have h1 : p.1 = n := by rw [← hlit]
            rw [h1]
            exact cloneI_ok_depth hc
          · have h2 : p.2 = { st with method := none } := by rw [← hlit]
            exact Or.inr h2

/-- The guarded branch of `__getattribute__` on the data path: the new
node is strictly deeper and the originating state keeps all fields but
the pending method. -/
theorem getattr_if_inv {st st1 post : IState} {n : String} {cur : Value}
    (h : (if n ∈ (dirV cur).filter (fun d => !pyStartsUnderscore d) ∧
            n ∉ ownSurface then
          match resolveAccessorFull st with
          | .error e => Except.error e
          | .ok p => Except.ok (AttrRes.data { p.1 with method := some n }, p.2)
        else Except.ok (AttrRes.own, st)) = Except.ok (AttrRes.data st1, post)) :
    st.depth < st1.depth ∧ (post = st ∨ post = { st with method := none }) := by
  split at h
  · cases hres : resolveAccessorFull st with
    | error e => rw [hres] at h; exact absurd h (by simp)
    | ok p =>
        rw [hres] at h
        try simp only [] at h
        have hinj := Except.ok.inj h
        have h1 : AttrRes.data { p.1 with method := some n }
            = AttrRes.data st1 := congrArg Prod.fst hinj
        have h2 : p.2 = post := congrArg Prod.snd hinj
        injection h1 with h1'
        obtain ⟨hd, hpost⟩ := resolveAccessorFull_ok_inv hres
        refine ⟨?_, ?_⟩
        · rw [← h1']
          show st.depth < p.1.depth
          rw [hd]
          exact Nat.lt_succ_self _
        · rw [← h2]
          exact hpost
  · exact absurd (congrArg Prod.fst (Except.ok.inj h)) (by simp)

/-- A data-resolving `__getattribute__` returns a strictly deeper node
and leaves the originating state intact except for the pending method. -/
theorem getattributeI_inv {st : IState} {n : String} {st1 post : IState}
    (h : getattributeI st n = .ok (.data st1, post)) :
    st.depth < st1.depth ∧ (post = st ∨ post = { st with method := none }) := by
  unfold getattributeI at h
  cases hm : st.method with
  | none =>
      rw [hm] at h
      try simp only [] at h
      exact getattr_if_inv h
  | some m =>
      rw [hm] at h
      try simp only [] at h
      cases hg : getattrV st.current m with
      | none =>
          rw [hg] at h
          try simp only [] at h
          exact absurd h (by simp)
      | some u =>
          rw [hg] at h
          try simp only [] at h
          exact getattr_if_inv h

/-- `_apply_operator` (binary) returns a strictly deeper node and leaves
the originating state intact except for the pending method. -/
theorem applyOperatorFull_inv {st : IState} {k : BinOp}
    {other : Sum Dim Value} {rev : Bool} {p : IState × IState}
    (h : applyOperatorFull st k other rev = .ok p) :
    st.depth < p.1.depth ∧ (p.2 = st ∨ p.2 = { st with method := none }) := by
  unfold applyOperatorFull at h
  cases hres : resolveAccessorFull st with
  | error e => rw [hres] at h; exact absurd h (by simp)
  | ok q =>
      rw [hres] at h
      try simp only [] at h
      obtain ⟨hd, hpost⟩ := resolveAccessorFull_ok_inv hres
      cases other with
      | inl d =>
          cases hc : cloneI q.1 (some (Dim.binE q.1.transform k d rev))
              false none none none false none [] with
          | error e => rw [hc] at h; exact absurd h (by simp)
          | ok nn =>
              rw [hc] at h
              try simp only [] at h
              have hinj := Except.ok.inj h
              constructor
              · have hp1 : p.1 = nn := by rw [← hinj]
                rw [hp1, cloneI_ok_depth hc, hd]
                omega
              · have hp2 : p.2 = q.2 := by rw [← hinj]
                rw [hp2]
                exact hpost
      | inr x =>
          cases hc : cloneI q.1 (some (Dim.binV q.1.transform k x rev))
              false none none none false none [] with
          | error e => rw [hc] at h; exact absurd h (by simp)
          | ok nn =>
              rw [hc] at h
              try simp only [] at h
              have hinj := Except.ok.inj h
              constructor
              · have hp1 : p.1 = nn := by rw [← hinj]
                rw [hp1, cloneI_ok_depth hc, hd]
                omega
              · have hp2 : p.2 = q.2 := by rw [← hinj]
                rw [hp2]
                exact hpost

/-- `_apply_operator` (unary) returns a strictly deeper node and leaves
the originating state intact except for the pending method. -/
theorem applyUnaryFull_inv {st : IState} {k : UnOp} {p : IState × IState}
    (h : applyUnaryFull st k = .ok p) :
    st.depth < p.1.depth ∧ (p.2 = st ∨ p.2 = { st with method := none }) := by
  unfold applyUnaryFull at h
  cases hres : resolveAccessorFull st with
  | error e => rw [hres] at h; exact absurd h (by simp)
  | ok q =>
      rw [hres] at h
      try simp only [] at h
      obtain ⟨hd, hpost⟩ := resolveAccessorFull_ok_inv hres
      cases hc : cloneI q.1 (some (.unD q.1.transform k))
          false none none none false none [] with
      | error e => rw [hc] at h; exact absurd h (by simp)
      | ok nn =>
          rw [hc] at h
          try simp only [] at h
          have hinj := Except.ok.inj h
          constructor
          · have hp1 : p.1 = nn := by rw [← hinj]
            rw [hp1, cloneI_ok_depth hc, hd]
            omega
          · have hp2 : p.2 = q.2 := by rw [← hinj]
            rw [hp2]
            exact hpost

/-- A successful `__call__` returns a strictly deeper node. -/
theorem interactiveCall_depth {st : IState} {args : List Value}
    {kw : List (String × Value)} {st1 : IState}
    (h : interactiveCall st args kw = .ok st1) : st.depth < st1.depth := by
  unfold interactiveCall at h
  cases hm : st.method with
  | none =>
      rw [hm] at h
      try simp only [] at h
      split at h
      · cases args with
        | nil =>
            rw [cloneI_ok_depth h]
            exact Nat.lt_succ_self _
        | cons a r => exact absurd h (by simp)
      · exact absurd h (by simp)
  | some m =>
      rw [hm] at h
      try simp only [] at h
      cases hc : cloneI st none false none none none true none [] with
      | error e => rw [hc] at h; exact absurd h (by simp)
      | ok nn =>
          rw [hc] at h
          try simp only [] at h
          have h2 := cloneI_ok_depth h
          have h1 := cloneI_ok_depth hc
          omega

/-- C6: every intercepting operation (data-resolving attribute access,
binary or unary operator — indexing is the `getitem` operator — and
call) returns a brand-new, strictly deeper wrapper node, and the
originating node is left unchanged in every field except for the
transient pending-method slot. -/
theorem C6_fresh_nodes_no_mutation :
    (∀ (st : IState) (n : String) (st1 post : IState),
        getattributeI st n = .ok (.data st1, post) →
        st.depth < st1.depth ∧ (post = st ∨ post = { st with method := none }))
    ∧ (∀ (st : IState) (k : BinOp) (other : Sum Dim Value) (rev : Bool)
        (p : IState × IState),
        applyOperatorFull st k other rev = .ok p →
        st.depth < p.1.depth ∧ (p.2 = st ∨ p.2 = { st with method := none }))
    ∧ (∀ (st : IState) (k : UnOp) (p : IState × IState),
        applyUnaryFull st k = .ok p →
        st.depth < p.1.depth ∧ (p.2 = st ∨ p.2 = { st with method := none }))
    ∧ (∀ (st : IState) (args : List Value) (kw : List (String × Value))
        (st1 : IState),
        interactiveCall st args kw = .ok st1 → st.depth < st1.depth) :=
  ⟨fun _ _ _ _ h => getattributeI_inv h,
   fun _ _ _ _ _ h => applyOperatorFull_inv h,
   fun _ _ _ h => applyUnaryFull_inv h,
   fun _ _ _ _ h => interactiveCall_depth h⟩

/-- Witness for C6: concrete fresh-node and no-mutation facts on the
scenario wrapper. -/
theorem C6_fresh_nodes_no_mutation_witness :
    (rW.depth < stA6.depth ∧
      (postA6 = rW ∨ postA6 = { rW with method := none }))
    ∧ (stA6.depth
        < (exPairE (applyOperatorFull stA6 .gt (.inr (.vint 1)) false)).1.depth
      ∧ ((exPairE (applyOperatorFull stA6 .gt (.inr (.vint 1)) false)).2 = stA6
        ∨ (exPairE (applyOperatorFull stA6 .gt (.inr (.vint 1)) false)).2
            = { stA6 with method := none }))
    ∧ rW.depth < (exState (interactiveCall rW [] [("width", .vint 200)])).depth :=
  ⟨C6_fresh_nodes_no_mutation.1 rW "A" stA6 postA6 (by rfl),
   C6_fresh_nodes_no_mutation.2.1 stA6 .gt (.inr (.vint 1)) false
     (exPairE (applyOperatorFull stA6 .gt (.inr (.vint 1)) false)) (by rfl),
   C6_fresh_nodes_no_mutation.2.2.2 rW [] [("width", .vint 200)]
     (exState (interactiveCall rW [] [("width", .vint 200)])) (by rfl)⟩

/-- C7: the reactive callback recomputes from scratch — its result never
depends on the cached current value and is obtained by applying the
transform to the live source; it narrows by the pending method via
`getattr` with fallback, returns the process-wide figure slot when the
plot flag is set, wraps a frame-shaped result into a bounded-row pane
with the row cap and extra display options, and returns the raw result
otherwise; replacing the shared source is visible to it. -/
theorem C7_callback_behavior :
    (∀ (st : IState) (figSlot c' : Value),
        callbackEval { st with current := c' } figSlot = callbackEval st figSlot)
    ∧ (∀ (st : IState) (figSlot u : Value),
        dimApply (cbTransform st) st.obj = some u → st.plot = true →
        callbackEval st figSlot = some figSlot)
    ∧ (∀ (st : IState) (figSlot u : Value) (cols : List (String × List Int)),
        dimApply (cbTransform st) st.obj = some u → st.plot = false →
        cbNarrow st u = .frame cols →
        callbackEval st figSlot = some (.pane cols st.maxRows st.kwargs))
    ∧ (∀ (st : IState) (figSlot u : Value),
        dimApply (cbTransform st) st.obj = some u → st.plot = false →
        (∀ cols, cbNarrow st u ≠ .frame cols) →
        callbackEval st figSlot = some (cbNarrow st u))
    ∧ (∀ (st : IState) (u : Value) (m : String), st.method = some m →
        cbNarrow st u = (getattrV u m).getD u)
    ∧ (∀ (st : IState) (v2 figSlot : Value),
        callbackEval (updateObj st v2) figSlot
          = callbackEval { st with obj := v2 } figSlot) := by
  refine ⟨fun _ _ _ => rfl, ?_, ?_, ?_, ?_, fun _ _ _ => rfl⟩
  · intro st figSlot u hap hpl
    simp [callbackEval, hap, hpl]
  · intro st figSlot u cols hap hpl hfr
    simp [callbackEval, hap, hpl, hfr]
  · intro st figSlot u hap hpl hnf
    cases hX : cbNarrow st u
    case frame cols => exact absurd hX (hnf cols)
    all_goals simp [callbackEval, hap, hpl, hX]
  · intro st u m hm
    simp [cbNarrow, hm]

/-- Witness for C7: on the scenario wrapper the plot flag returns the
figure slot and a frame result is wrapped into a bounded-row pane. -/
theorem C7_callback_behavior_witness :
    callbackEval { rW with plot := true } (.vstr "FIG") = some (.vstr "FIG")
    ∧ callbackEval rW .vnone = some (.pane [("A", [1, 2, 3])] 100 []) :=
  ⟨C7_callback_behavior.2.1 { rW with plot := true } (.vstr "FIG") vW
      (by rfl) rfl,
   C7_callback_behavior.2.2.1 rW .vnone vW [("A", [1, 2, 3])]
      (by rfl) rfl (by rfl)⟩

/-- Looking a key up beyond a prefix that does not contain it. -/
theorem lookup_append_of_nomatch {A B : List (String × Value)} {key : String}
    (h : A.lookup key = none) : (A ++ B).lookup key = B.lookup key := by
  induction A with
  | nil => rfl
  | cons p r ih =>
      obtain ⟨pk, pv⟩ := p
      cases hbeq : (key == pk) with
      | true => simp [List.lookup, hbeq] at h
      | false =>
          simp only [List.lookup, hbeq] at h
          simp only [List.cons_append, List.lookup, hbeq]
          exact ih h

/-- The value-override map of `pyUpdate` preserves keys, hence misses. -/
theorem lookup_map_none {d : List (String × Value)} {key : String}
    {e : List (String × Value)}
    (h : d.lookup key = none) :
    (d.map fun p =>
        match e.lookup p.1 with
        | some v => (p.1, v)
        | none => p).lookup key = none := by
  induction d with
  | nil => rfl
  | cons p r ih =>
      obtain ⟨pk, pv⟩ := p
      cases hbeq : (key == pk) with
      | true => simp [List.lookup, hbeq] at h
      | false =>
          simp only [List.lookup, hbeq] at h
          cases hlk : e.lookup pk <;>
            simp only [List.map_cons, hlk, List.lookup, hbeq] <;>
            exact ih h

/-- Binding a previously absent key through `pyUpdate`. -/
theorem pyUpdate_lookup {d : List (String × Value)} {key : String} {x : Value}
    (h : d.lookup key = none) :
    (pyUpdate d [(key, x)]).lookup key = some x := by
  unfold pyUpdate
  rw [lookup_append_of_nomatch (lookup_map_none h)]
  simp [List.filter, h, List.lookup]

/-- C9: a kind-bound plotting accessor call rejects an explicit `kind`
keyword with the reserved-keyword error (the spec's
`InvalidArgumentError`, a `TypeError` in the code); without the
colliding keyword the call succeeds and binds the fixed kind (the
recorded call carries `kind` and the result remembers it, with `dmap`
off for the string kind). -/
theorem C9_kind_bound_call (st : IState) (args : List Value)
    (kwargs : List (String × Value)) (k : String)
    (cols : List (String × List Int))
    (hk : k ∈ hvplotKinds)
    (hm : st.method = none)
    (happ : dimApply st.transform st.obj = some st.current)
    (hcur : st.current = .frame cols) :
    ((kwargs.lookup "kind").isSome →
        hvplotCall st args kwargs (some k) = .error .typeError)
    ∧ ((kwargs.lookup "kind") = none →
        ∃ st1, hvplotCall st args kwargs (some k) = .ok st1 ∧
          st1.current = .plotObj (some (.vstr k)) ∧ st1.dmap = false) := by
  have hk0 : k ≠ "" := by
    simp [hvplotKinds] at hk
    rcases hk with rfl | rfl | rfl | rfl | rfl | rfl <;> decide
  have htr : pyTruthy (some k) = true := by
    simp [pyTruthy]
    intro hc
    exact absurd hc hk0
  constructor
  · intro hkind
    unfold hvplotCall
    rw [if_pos ⟨htr, hkind⟩]
  · intro hnone
    have hlk : (pyUpdate kwargs [("kind", Value.vstr k)]).lookup "kind"
        = some (.vstr k) := pyUpdate_lookup hnone
    have hnar : ∀ m, st.method = some m → (getattrV st.current m).isSome := by
      intro m hmm
      rw [hm] at hmm
      exact absurd hmm (by simp)
    rcases resolve_ok happ hnar with
      ⟨n1, post, cur, hcurn, hres, hobj1, _, _, hcur1, happ1, _, _⟩
    have hcur2 : cur = st.current := by
      have hn : narrowCur st = some st.current := by simp [narrowCur, hm]
      rw [hn] at hcurn
      exact (Option.some.inj hcurn).symm
    have hresN : resolveAccessorNew st = .ok n1 := by
      simp [resolveAccessorNew, hres]
    have hdim : dimApply
        (Dim.callD (.getattrD n1.transform "hvplot") args
          (pyUpdate kwargs [("kind", Value.vstr k)])) n1.obj
        = some (.plotObj (some (.vstr k))) := by
      rw [hobj1]
      simp [dimApply, happ1, hcur2, hcur, getattrV, frameAttrMethods,
        callV, hvplotResult, hlk]
    unfold hvplotCall
    rw [if_neg (by rw [hnone]; simp [htr])]
    rw [hresN]
    simp only [if_neg hk0]
    rw [hlk]
    rw [cloneI_ok (by simpa using hdim)]
    exact ⟨_, rfl, rfl, rfl⟩

/-- Witness for C9: the scenario wrapper's `hvplot.line` call — an
explicit `kind` keyword fails, a clean call binds `kind="line"`. -/
theorem C9_kind_bound_call_witness :
    hvplotCall rW [] [("kind", .vstr "scatter")] (some "line")
        = .error .typeError
    ∧ ∃ st1, hvplotCall rW [] [] (some "line") = .ok st1 ∧
        st1.current = .plotObj (some (.vstr "line")) ∧ st1.dmap = false :=
  ⟨(C9_kind_bound_call rW [] [("kind", .vstr "scatter")] "line"
      [("A", [1, 2, 3])] (by decide) rfl (by rfl) (by rfl)).1 (by rfl),
   (C9_kind_bound_call rW [] [] "line" [("A", [1, 2, 3])]
      (by decide) rfl (by rfl) (by rfl)).2 rfl⟩

/-- C10: calling a wrapper with no pending accessor succeeds only at the
chain root (depth zero), returning a reconfigured clone (same transform,
no data operation appended, display kwargs merged); at any other depth
it raises `AttributeError`. -/
theorem C10_root_call (st : IState) (kw : List (String × Value))
    (hm : st.method = none)
    (happ : dimApply st.transform st.obj = some st.current) :
    (st.depth = 0 → ∃ st1, interactiveCall st [] kw = .ok st1 ∧
        st1.transform = st.transform ∧ st1.method = none ∧
        st1.depth = st.depth + 1 ∧
        st1.kwargs = pyUpdate st.inheritKw (pyUpdate st.kwargs kw))
    ∧ (st.depth ≠ 0 → interactiveCall st [] kw = .error .attributeError) := by
  constructor
  · intro hd
    unfold interactiveCall
    rw [hm]
    try simp only [] at *
    rw [if_pos hd]
    rw [cloneI_ok (by simpa using happ)]
    exact ⟨_, rfl, rfl, rfl, rfl, rfl⟩
  · intro hd
    unfold interactiveCall
    rw [hm]
    try simp only [] at *
    rw [if_neg hd]

/-- Witness for C10: the scenario root accepts a configuration call; the
same state at depth one raises `AttributeError`. -/
theorem C10_root_call_witness :
    (∃ st1, interactiveCall rW [] [("width", .vint 200)] = .ok st1 ∧
        st1.transform = rW.transform ∧ st1.method = none ∧
        st1.depth = rW.depth + 1 ∧
        st1.kwargs = pyUpdate rW.inheritKw
          (pyUpdate rW.kwargs [("width", .vint 200)]))
    ∧ interactiveCall stDepth1 [] [] = .error .attributeError :=
  ⟨(C10_root_call rW [("width", .vint 200)] rfl (by rfl)).1 (by rfl),
   (C10_root_call stDepth1 [] rfl (by rfl)).2 (by decide)⟩

/-- Membership after one conditional append. -/
theorem mem_mergeStep {ws : List Nat} {w x : Nat} :
    x ∈ mergeStep ws w ↔ x ∈ ws ∨ x = w := by
  by_cases h : w ∈ ws
  · simp only [mergeStep, if_pos h]
    constructor
    · exact Or.inl
    · rintro (hx | rfl)
      · exact hx
      · exact h
  · simp [mergeStep, if_neg h]

/-- Membership after merging a stream. -/
theorem mem_mergeNew {l : List Nat} : ∀ {ws : List Nat} {x : Nat},
    x ∈ mergeNew ws l ↔ x ∈ ws ∨ x ∈ l := by
  induction l with
  | nil => intro ws x; simp [mergeNew]
  | cons a r ih =>
      intro ws x
      have h1 : mergeNew ws (a :: r) = mergeNew (mergeStep ws a) r := rfl
      rw [h1, ih, mem_mergeStep, List.mem_cons]
      tauto

/-- One conditional append preserves distinctness. -/
theorem nodup_mergeStep {ws : List Nat} {w : Nat} (h : ws.Nodup) :
    (mergeStep ws w).Nodup := by
  by_cases hw : w ∈ ws
  · simpa [mergeStep, hw] using h
  · simp only [mergeStep, if_neg hw]
    rw [List.nodup_append]
    exact ⟨h, List.nodup_singleton w,
      fun a ha hb => hw ((List.mem_singleton.mp hb) ▸ ha)⟩

/-- Merging preserves distinctness. -/
theorem nodup_mergeNew {l : List Nat} : ∀ {ws : List Nat}, ws.Nodup →
    (mergeNew ws l).Nodup := by
  induction l with
  | nil => intro ws h; exact h
  | cons a r ih => intro ws h; exact ih (nodup_mergeStep h)

/-- Merging a concatenated stream merges the parts in order. -/
theorem mergeNew_append (ws a b : List Nat) :
    mergeNew ws (a ++ b) = mergeNew (mergeNew ws a) b := by
  simp [mergeNew, List.foldl_append]

/-- Merging a conditionally appended widget commutes with the merge. -/
theorem mergeNew_mergeStep (ws acc : List Nat) (x : Nat) :
    mergeNew ws (mergeStep acc x) = mergeStep (mergeNew ws acc) x := by
  by_cases h : x ∈ acc
  · have hx : x ∈ mergeNew ws acc := mem_mergeNew.mpr (Or.inr h)
    rw [mergeStep, if_pos h, mergeStep, if_pos hx]
  · rw [mergeStep, if_neg h, mergeNew_append]
    rfl

/-- Merging an already deduplicated collection equals merging its raw
stream. -/
theorem mergeNew_mergeNew (l : List Nat) : ∀ ws acc,
    mergeNew ws (mergeNew acc l) = mergeNew (mergeNew ws acc) l := by
  induction l with
  | nil => intro ws acc; rfl
  | cons x r ih =>
      intro ws acc
      have h1 : mergeNew acc (x :: r) = mergeNew (mergeStep acc x) r := rfl
      rw [h1, ih, mergeNew_mergeStep]
      rfl

mutual
/-- `_find_widgets` on one argument merges exactly that argument's raw
widget stream. -/
theorem fwArg_spec : ∀ (ipy : Bool) (a : Arg) (ws : List Nat),
    fwArg ipy a ws = mergeNew ws (streamArg ipy a)
  | ipy, .widget w, ws => by simp [fwArg, streamArg, mergeNew]
  | ipy, .ipyWidget w, ws => by
      cases ipy <;> simp [fwArg, streamArg, mergeNew]
  | ipy, .paramOf (some w), ws => by simp [fwArg, streamArg, mergeNew]
  | ipy, .paramOf none, ws => by simp [fwArg, streamArg, mergeNew]
  | ipy, .other, ws => by simp [fwArg, streamArg, mergeNew]
  | ipy, .dim ops, ws => by
      simp only [fwArg, streamArg]
      exact fwOps_spec ipy ops ws

/-- `_find_widgets` over an argument list merges the concatenated
stream. -/
theorem fwArgs_spec : ∀ (ipy : Bool) (args : List Arg) (ws : List Nat),
    fwArgs ipy args ws = mergeNew ws (streamArgs ipy args)
  | ipy, [], ws => by simp [fwArgs, streamArgs, mergeNew]
  | ipy, a :: rest, ws => by
      simp only [fwArgs, streamArgs]
      rw [fwArg_spec ipy a ws, fwArgs_spec ipy rest _, mergeNew_append]

/-- The nested-dim walk merges the concatenated stream of the nested
operations. -/
theorem fwOps_spec : ∀ (ipy : Bool) (ops : List (List Arg)) (ws : List Nat),
    fwOps ipy ops ws = mergeNew ws (streamOps ipy ops)
  | ipy, [], ws => by simp [fwOps, streamOps, mergeNew]
  | ipy, op :: rest, ws => by
      simp only [fwOps, streamOps]
      rw [fwOps_spec ipy rest _, fwArgs_spec ipy op [], mergeNew_mergeNew,
        mergeNew_append]
      rfl
end

/-- `_find_widgets` is the first-seen deduplication of the raw stream. -/
theorem findWidgets_spec (ipy : Bool) (op : List Arg) :
    findWidgets ipy op = firstSeen (streamArgs ipy op) := by
  unfold findWidgets firstSeen
  exact fwArgs_spec ipy op []

/-- `Interactive.widgets` is the first-seen deduplication of the driver
widgets followed by the transform operations' streams. -/
theorem widgetsI_spec (ipy : Bool) (fnParams : List (Option Nat))
    (ops : List (List Arg)) :
    widgetsI ipy fnParams ops
      = firstSeen (fnParams.filterMap id ++ streamOps ipy ops) := by
  unfold widgetsI firstSeen
  have hfold : ∀ (fl : List (Option Nat)) (acc : List Nat),
      fl.foldl (fun acc p =>
          match p with
          | some w => mergeStep acc w
          | none => acc) acc
        = mergeNew acc (fl.filterMap id) := by
    intro fl
    induction fl with
    | nil => intro acc; rfl
    | cons p r ih =>
        intro acc
        cases p with
        | none =>
            simp only [List.foldl_cons, List.filterMap_cons]
            exact ih acc
        | some w =>
            simp only [List.foldl_cons, List.filterMap_cons]
            exact ih (mergeStep acc w)
  have hfold2 : ∀ (ol : List (List Arg)) (acc : List Nat),
      ol.foldl (fun acc op => mergeNew acc (findWidgets ipy op)) acc
        = mergeNew acc (streamOps ipy ol) := by
    intro ol
    induction ol with
    | nil => intro acc; rfl
    | cons op r ih =>
        intro acc
        simp only [List.foldl_cons, streamOps]
        rw [findWidgets_spec]
        unfold firstSeen
        rw [mergeNew_mergeNew, ih, mergeNew_append]
        rfl
  rw [hfold, hfold2, mergeNew_append]

/-- C8: widget discovery over an operation's recursively flattened
arguments returns each control widget (or widget owner of a reactive
parameter) exactly once, in first-seen order of the raw traversal
stream, regardless of repetitions; and the control panel is this result
preceded by the widgets owned by the driver's dependency parameters,
deduplicated the same way. -/
theorem C8_widget_discovery :
    (∀ (ipy : Bool) (op : List Arg),
        findWidgets ipy op = firstSeen (streamArgs ipy op) ∧
        (findWidgets ipy op).Nodup ∧
        ∀ x, x ∈ findWidgets ipy op ↔ x ∈ streamArgs ipy op)
    ∧ ∀ (ipy : Bool) (fnParams : List (Option Nat)) (ops : List (List Arg)),
        widgetsI ipy fnParams ops
          = firstSeen (fnParams.filterMap id ++ streamOps ipy ops) ∧
        (widgetsI ipy fnParams ops).Nodup := by
  constructor
  · intro ipy op
    refine ⟨findWidgets_spec ipy op, ?_, ?_⟩
    · rw [findWidgets_spec]
      exact nodup_mergeNew List.nodup_nil
    · intro x
      rw [findWidgets_spec]
      unfold firstSeen
      rw [mem_mergeNew]
      simp
  · intro ipy fnP ops
    refine ⟨widgetsI_spec ipy fnP ops, ?_⟩
    rw [widgetsI_spec]
    exact nodup_mergeNew List.nodup_nil

end HvInteractive
